import Mathlib

/-!
# antigravity-cleaner: a shallow embedding and its verified properties

The development follows the four Go source files of the repository:

* `internal/scanner/scanner.go`  (the finding record, the size accumulator, the scans),
* `internal/ui/ui.go`            (the selection workflow, the dry-run report),
* `internal/cleaner/cleaner.go`  (the removal executor),
* `cmd/agc/main.go`              (the `clean` command).

Conventions of the embedding.

* A filesystem path is the list of its components; an absolute path starts with the
  component "/". `filepath.Join` is list append, `filepath.Dir` drops the last component
  and `filepath.Base` is the last component. Paths are clean: a component is a name,
  never `.` or `..`.
* Go `int64` values are integers of Lean, and every `int64` addition of the source is
  followed by `wrapInt64`, the reduction to the two-complement range.
* Go `int` counters that only count elements of a slice are natural numbers: a slice has
  at most `2^63 - 1` elements, so such a counter cannot overflow.
* Code that mutates variables in a loop is a fold over an explicit state.
-/

namespace AGC

/-! ## Machine integers -/

/-- Reduction of an integer to the range of a Go `int64` (two-complement wraparound). -/
def wrapInt64 (x : Int) : Int := (x + 2 ^ 63) % 2 ^ 64 - 2 ^ 63

/-- Go conversion `uint64(x)` of an `int64` value. -/
def toUint64 (x : Int) : Nat := (x % 2 ^ 64).toNat

/-- Membership of the `int64` range. -/
def IsInt64 (x : Int) : Prop := -(2 ^ 63) ≤ x ∧ x < 2 ^ 63

/-! ## scanner.go: the finding record -/

/-- A filesystem path, as the list of its components. -/
abbrev Path := List String

/-- Go `filepath.Dir` on component lists. -/
def Dir (p : Path) : Path := p.dropLast

/-- Go `filepath.Base` on component lists: the last component, "." for the empty path. -/
def Base (p : Path) : String := p.getLast?.getD "."

/-- Go struct `CleanableItem`. -/
structure CleanableItem where
  Path : Path
  Size : Int
  Category : String
  Description : String
  SafeLevel : String
deriving DecidableEq, Repr

/-! ## Terminal output

What the program prints is kept as a list of events. A byte count handed to
`humanize.Bytes` is kept as the `uint64` value handed over, not as the rendered text. -/

/-- One printed line (or fragment) of the program. -/
inductive Output where
  | text (s : String)
  | removing (description : String)
  | failed
  | freed (bytes : Nat)
  | done (successCount : Nat) (bytes : Nat)
  | failedCount (n : Nat)
  | dryRunItem (description : String) (bytes : Nat)
  | dryRunPath (path : Path)
  | wouldFree (bytes : Nat)
deriving DecidableEq, Repr

/-- The rule the reports print above their total. -/
def ruleLine : String :=
  "━━━━━━━━━━━━━━━━━━━━━━━━━━━━━━━━━━━━━━━━━━━━━━━━━━━━"

/-! ## cleaner.go: the removal executor -/

/-- The local variables of `CleanItems`, together with the state of the outside world
(threaded through the calls of `os.RemoveAll`) and the lines printed so far. -/
structure CleanState (σ : Type) where
  world : σ
  out : List Output
  totalCleaned : Int
  successCount : Nat
  failCount : Nat

/-- Body of the loop of `CleanItems` for one item. `removeAll w p` is `os.RemoveAll(p)`
run in world `w`: it gives the world afterwards and whether the returned error is nil. -/
def cleanStep {σ : Type} (removeAll : σ → Path → σ × Bool)
    (st : CleanState σ) (item : CleanableItem) : CleanState σ :=
  let r := removeAll st.world item.Path
  if r.2 then
    { world := r.1
      out := st.out ++ [Output.removing item.Description, Output.freed (toUint64 item.Size)]
      totalCleaned := wrapInt64 (st.totalCleaned + item.Size)
      successCount := st.successCount + 1
      failCount := st.failCount }
  else
    { world := r.1
      out := st.out ++ [Output.removing item.Description, Output.failed]
      totalCleaned := st.totalCleaned
      successCount := st.successCount
      failCount := st.failCount + 1 }

/-- The state of `CleanItems` when its loop has ended. -/
def cleanLoop {σ : Type} (removeAll : σ → Path → σ × Bool)
    (w : σ) (items : List CleanableItem) : CleanState σ :=
  items.foldl (cleanStep removeAll)
    { world := w, out := [Output.text "\n🧹 Cleaning..."], totalCleaned := 0,
      successCount := 0, failCount := 0 }

/-- Go `CleanItems`: the loop, then the summary lines. -/
def CleanItems {σ : Type} (removeAll : σ → Path → σ × Bool)
    (w : σ) (items : List CleanableItem) : CleanState σ :=
  let st := cleanLoop removeAll w items
  let out := st.out ++ [Output.text "", Output.done st.successCount (toUint64 st.totalCleaned)]
  { st with out := if st.failCount > 0 then out ++ [Output.failedCount st.failCount] else out }

/-! ## scanner.go: the filesystem seen by the scans

The filesystem is a finite tree. A node is what `os.Lstat` reports about one name:
a non-directory with its kind and size, a directory with its own reported size and its
entries in the order `readDirNames` lists them, a directory whose listing fails, or a
name whose `lstat` fails. Symbolic links are leaves: the walk never follows them, and
`os.Stat` succeeds on a link exactly when it is not dangling. -/

/-- Kind of a non-directory entry. -/
inductive FileKind where
  | regular
  | symlink (dangling : Bool)
  | special
deriving DecidableEq, Repr

mutual
/-- One filesystem object. -/
inductive Node where
  | file (kind : FileKind) (size : Int)
  | dir (size : Int) (entries : Entries)
  | unreadableDir (size : Int)
  | bad
/-- The named entries of a directory, in listing order. -/
inductive Entries where
  | nil
  | cons (name : String) (node : Node) (rest : Entries)
end

/-- The entries of a directory as a list of pairs. -/
def Entries.toList : Entries → List (String × Node)
  | .nil => []
  | .cons name node rest => (name, node) :: rest.toList

/-- The first entry of the given name. -/
def Entries.find : Entries → String → Option Node
  | .nil, _ => none
  | .cons n node rest, name => if n = name then some node else rest.find name

/-- Follow the components of a path downwards from a node. -/
def Node.descend : Node → Path → Option Node
  | n, [] => some n
  | .dir _ es, c :: cs =>
    match es.find c with
    | some n => n.descend cs
    | none => none
  | .file _ _, _ :: _ => none
  | .unreadableDir _, _ :: _ => none
  | .bad, _ :: _ => none

/-- Whether `IsDir()` holds of the node. -/
def Node.isDir : Node → Bool
  | .dir _ _ => true
  | .unreadableDir _ => true
  | .file _ _ => false
  | .bad => false

/-- A filesystem: the tree below "/", and the working directory (components below "/")
against which a relative path is resolved. -/
structure FS where
  root : Node
  cwd : Path

/-- The node a path names, if any. The empty path names nothing. -/
def FS.resolve (fs : FS) (p : Path) : Option Node :=
  match p with
  | [] => none
  | c :: rest => if c = "/" then fs.root.descend rest else fs.root.descend (fs.cwd ++ c :: rest)

/-- Go `os.FileInfo`, reduced to the methods the source calls. -/
structure FileInfo where
  Name : String
  IsDir : Bool
  Size : Int
deriving DecidableEq, Repr

/-- The values a `filepath.WalkFunc` returns: nil, `filepath.SkipDir`, any other error. -/
inductive WalkErr where
  | nil
  | SkipDir
  | fail
deriving DecidableEq, Repr

/-- Go `filepath.WalkFunc` over an explicit state (the variables the closure captures).
The arguments are the state, the path, the file info (none when `lstat` failed) and
whether the incoming error is non-nil. -/
abbrev WalkFunc (σ : Type) := σ → Path → Option FileInfo → Bool → σ × WalkErr

/-- Whether the loop of `walk` returns after an entry, given what visiting it returned:
any error but `SkipDir` stops the loop, and `SkipDir` stops it when the entry is a
non-directory whose `lstat` succeeded. -/
def walkStops (node : Node) (err : WalkErr) : Bool :=
  match err, node with
  | .nil, _ => false
  | .fail, _ => true
  | .SkipDir, .file _ _ => true
  | .SkipDir, _ => false

mutual
/-- Go `filepath.walk` (for a node whose `lstat` failed: the direct call of the
function that `walk` and `Walk` make in that case). -/
def walk {σ : Type} (walkFn : WalkFunc σ) (path : Path) : Node → σ → σ × WalkErr
  | .file _ sz, s => walkFn s path (some ⟨Base path, false, sz⟩) false
  | .dir sz es, s =>
    let r := walkFn s path (some ⟨Base path, true, sz⟩) false
    if r.2 = WalkErr.nil then walkEntries walkFn path es r.1 else r
  | .unreadableDir sz, s => walkFn s path (some ⟨Base path, true, sz⟩) true
  | .bad, s => walkFn s path none true
/-- The loop of `filepath.walk` over the names of a directory. -/
def walkEntries {σ : Type} (walkFn : WalkFunc σ) (path : Path) : Entries → σ → σ × WalkErr
  | .nil, s => (s, WalkErr.nil)
  | .cons name node rest, s =>
    let r := walk walkFn (path ++ [name]) node s
    if walkStops node r.2 then r else walkEntries walkFn path rest r.1
end

/-- Go `filepath.Walk`; the callers of the source discard the returned error, so only
the final state is kept. -/
def Walk {σ : Type} (fs : FS) (root : Path) (walkFn : WalkFunc σ) (s : σ) : σ :=
  match fs.resolve root with
  | none => (walkFn s root none true).1
  | some node => (walk walkFn root node s).1

/-! ## scanner.go: helpers -/

/-- The process environment read by the scans. `UserHomeDir` is none when
`os.UserHomeDir` returns an error; an unset variable is the empty path. -/
structure Env where
  GOOS : String
  UserHomeDir : Option Path
  APPDATA : Path
  LOCALAPPDATA : Path

/-- Go `getHomeDir`: the home directory, the empty string on error. -/
def getHomeDir (env : Env) : Path :=
  match env.UserHomeDir with
  | some home => home
  | none => []

/-- The function literal of `getDirSize`; the state is the variable `size`. -/
def getDirSizeFn : WalkFunc Int := fun size _ info err =>
  if err then (size, WalkErr.nil)
  else match info with
    | some info => if !info.IsDir then (wrapInt64 (size + info.Size), WalkErr.nil)
                   else (size, WalkErr.nil)
    | none => (size, WalkErr.nil)

/-- Go `getDirSize`. -/
def getDirSize (fs : FS) (path : Path) : Int := Walk fs path getDirSizeFn 0

/-- Go `exists`: `os.Stat` returns no error. -/
def pathExists (fs : FS) (path : Path) : Bool :=
  match fs.resolve path with
  | some (.file (.symlink dangling) _) => !dangling
  | some (.file _ _) => true
  | some (.dir _ _) => true
  | some (.unreadableDir _) => true
  | some .bad => false
  | none => false

/-- Go `os.DirEntry`, reduced to the methods the source calls. -/
structure DirEntry where
  Name : String
  IsDir : Bool
deriving DecidableEq, Repr

/-- The directory entries `os.ReadDir` returns for a listing. -/
def Entries.dirEntries : Entries → List DirEntry
  | .nil => []
  | .cons name node rest => ⟨name, node.isDir⟩ :: rest.dirEntries

/-- Go `os.ReadDir`: none when it returns an error. -/
def ReadDir (fs : FS) (path : Path) : Option (List DirEntry) :=
  match fs.resolve path with
  | some (.dir _ es) => some es.dirEntries
  | _ => none

/-- Scan of a name from its end for the last dot, as `filepath.Ext` does; `acc` holds
the characters already passed. -/
def extFrom : List Char → List Char → String
  | [], _ => ""
  | c :: cs, acc =>
    if c = '/' then "" else if c = '.' then String.mk ('.' :: acc) else extFrom cs (c :: acc)

/-- Go `filepath.Ext`. -/
def Ext (name : String) : String := extFrom name.data.reverse []

/-- The entry of a table of fixed candidate paths. -/
structure PathSpec where
  path : Path
  category : String
  description : String
  safeLevel : String
deriving DecidableEq, Repr

/-- The loop shared by the fixed-path scans: a candidate that exists and whose size is
above `threshold` is appended to the results. -/
def scanPaths (fs : FS) (threshold : Int) (paths : List PathSpec) (results : List CleanableItem) :
    List CleanableItem :=
  paths.foldl (fun results p =>
    if pathExists fs p.path then
      let size := getDirSize fs p.path
      if size > threshold then
        results ++ [{ Path := p.path, Size := size, Category := p.category,
                      Description := p.description, SafeLevel := p.safeLevel }]
      else results
    else results) results

/-! ## scanner.go: the scans -/

/-- The table `paths` of `ScanAntigravity`, by platform. -/
def antigravityPaths (env : Env) : List PathSpec :=
  let home := getHomeDir env
  if env.GOOS = "darwin" then
    [ ⟨home ++ [".gemini", "antigravity", "browser_recordings"], "Antigravity", "Session recordings (screenshots)", "safe"⟩,
      ⟨home ++ [".gemini", "antigravity", "conversations"], "Antigravity", "Conversation history", "caution"⟩,
      ⟨home ++ [".gemini", "antigravity", "brain"], "Antigravity", "AI memory cache", "caution"⟩,
      ⟨home ++ [".gemini", "antigravity", "implicit"], "Antigravity", "Implicit data cache", "safe"⟩,
      ⟨home ++ ["Library", "Application Support", "Antigravity", "CachedData"], "Antigravity", "JS/WASM cached data", "safe"⟩,
      ⟨home ++ ["Library", "Application Support", "Antigravity", "Code Cache"], "Antigravity", "Code cache", "safe"⟩,
      ⟨home ++ ["Library", "Application Support", "Antigravity", "User", "_extensions-disabled"], "Antigravity", "Disabled extensions backup", "safe"⟩,
      ⟨home ++ ["Library", "Application Support", "Antigravity", "DawnWebGPUCache"], "Antigravity", "WebGPU cache", "safe"⟩,
      ⟨home ++ ["Library", "Application Support", "Antigravity", "DawnGraphiteCache"], "Antigravity", "Graphite cache", "safe"⟩,
      ⟨home ++ ["Library", "Application Support", "Antigravity", "User", "workspaceStorage"], "Antigravity", "Workspace storage", "caution"⟩,
      ⟨home ++ [".antigravity", "extensions"], "Antigravity", "Old extension versions", "safe"⟩ ]
  else if env.GOOS = "windows" then
    [ ⟨home ++ [".gemini", "antigravity", "browser_recordings"], "Antigravity", "Session recordings", "safe"⟩,
      ⟨home ++ [".gemini", "antigravity", "conversations"], "Antigravity", "Conversation history", "caution"⟩,
      ⟨home ++ [".gemini", "antigravity", "brain"], "Antigravity", "AI memory cache", "caution"⟩,
      ⟨env.APPDATA ++ ["Antigravity", "CachedData"], "Antigravity", "Cached data", "safe"⟩,
      ⟨env.APPDATA ++ ["Antigravity", "Code Cache"], "Antigravity", "Code cache", "safe"⟩,
      ⟨env.LOCALAPPDATA ++ ["Antigravity", "CachedData"], "Antigravity", "Local cached data", "safe"⟩ ]
  else if env.GOOS = "linux" then
    let configDir := home ++ [".config"]
    [ ⟨home ++ [".gemini", "antigravity", "browser_recordings"], "Antigravity", "Session recordings", "safe"⟩,
      ⟨home ++ [".gemini", "antigravity", "conversations"], "Antigravity", "Conversation history", "caution"⟩,
      ⟨home ++ [".gemini", "antigravity", "brain"], "Antigravity", "AI memory cache", "caution"⟩,
      ⟨configDir ++ ["Antigravity", "CachedData"], "Antigravity", "Cached data", "safe"⟩,
      ⟨configDir ++ ["Antigravity", "Code Cache"], "Antigravity", "Code cache", "safe"⟩ ]
  else []

/-- Go `ScanAntigravity`. -/
def ScanAntigravity (env : Env) (fs : FS) : List CleanableItem :=
  scanPaths fs 0 (antigravityPaths env) []

/-- The function literal that `ScanFlutter` hands to `filepath.Walk`; the state is the
variable `results`. -/
def scanFlutterFn (fs : FS) : WalkFunc (List CleanableItem) := fun results path info err =>
  if err then (results, WalkErr.nil)
  else match info with
    | none => (results, WalkErr.nil)
    | some info =>
      if info.IsDir && (info.Name.front = '.' || info.Name = "node_modules") then
        (results, WalkErr.SkipDir)
      else
        let results :=
          if info.IsDir && info.Name = "build" then
            let parent := Dir path
            if pathExists fs (parent ++ ["pubspec.yaml"]) then
              let size := getDirSize fs path
              if size > 100 * 1024 * 1024 then
                results ++ [{ Path := path, Size := size, Category := "Flutter",
                              Description := "Build directory: " ++ Base parent,
                              SafeLevel := "safe" }]
              else results
            else results
          else results
        let results :=
          if info.IsDir && info.Name = ".dart_tool" then
            let size := getDirSize fs path
            if size > 50 * 1024 * 1024 then
              let parent := Dir path
              results ++ [{ Path := path, Size := size, Category := "Flutter",
                            Description := ".dart_tool: " ++ Base parent,
                            SafeLevel := "safe" }]
            else results
          else results
        (results, WalkErr.nil)

/-- The base path `ScanFlutter` walks: the argument, or `Documents` under the home
directory when the argument is the empty string. -/
def flutterBase (env : Env) (basePath : Path) : Path :=
  if basePath = [] then getHomeDir env ++ ["Documents"] else basePath

/-- The results of `ScanFlutter` when its walk has ended (before the pub cache). -/
def scanFlutterWalk (env : Env) (fs : FS) (basePath : Path) : List CleanableItem :=
  Walk fs (flutterBase env basePath) (scanFlutterFn fs) []

/-- Go `ScanFlutter`. -/
def ScanFlutter (env : Env) (fs : FS) (basePath : Path) : List CleanableItem :=
  let results := scanFlutterWalk env fs basePath
  let pubCache := getHomeDir env ++ [".pub-cache"]
  if pathExists fs pubCache then
    let size := getDirSize fs pubCache
    if size > 100 * 1024 * 1024 then
      results ++ [{ Path := pubCache, Size := size, Category := "Flutter",
                    Description := "Pub package cache", SafeLevel := "caution" }]
    else results
  else results

/-- The table `paths` of `ScanXcode`; the category, a literal of the loop body in the
source, is stored with each entry. -/
def xcodePaths (env : Env) : List PathSpec :=
  let home := getHomeDir env
  [ ⟨home ++ ["Library", "Developer", "Xcode", "DerivedData"], "Xcode", "Xcode DerivedData", "safe"⟩,
    ⟨home ++ ["Library", "Developer", "Xcode", "iOS DeviceSupport"], "Xcode", "iOS DeviceSupport", "safe"⟩,
    ⟨home ++ ["Library", "Developer", "Xcode", "watchOS DeviceSupport"], "Xcode", "watchOS DeviceSupport", "safe"⟩,
    ⟨home ++ ["Library", "Developer", "Xcode", "Archives"], "Xcode", "Xcode Archives", "caution"⟩,
    ⟨home ++ ["Library", "Developer", "CoreSimulator", "Caches"], "Xcode", "Simulator Caches", "safe"⟩ ]

/-- Go `ScanXcode`. -/
def ScanXcode (env : Env) (fs : FS) : List CleanableItem :=
  if env.GOOS ≠ "darwin" then []
  else scanPaths fs (100 * 1024 * 1024) (xcodePaths env) []

/-- The table `paths` of `ScanAndroid`; the category, a literal of the loop body in the
source, is stored with each entry. -/
def androidPaths (env : Env) : List PathSpec :=
  let home := getHomeDir env
  [ ⟨home ++ [".gradle", "caches"], "Android", "Gradle caches", "safe"⟩,
    ⟨home ++ [".gradle", "wrapper", "dists"], "Android", "Gradle distributions", "caution"⟩,
    ⟨home ++ [".android", "cache"], "Android", "Android SDK cache", "safe"⟩ ]

/-- The loop of `ScanAndroid` over the entries of the AVD directory. -/
def scanAvdEntries (fs : FS) (avdPath : Path) (entries : List DirEntry)
    (results : List CleanableItem) : List CleanableItem :=
  entries.foldl (fun results entry =>
    if entry.IsDir && Ext entry.Name = ".avd" then
      let fullPath := avdPath ++ [entry.Name]
      let size := getDirSize fs fullPath
      if size > 1024 * 1024 * 1024 then
        results ++ [{ Path := fullPath, Size := size, Category := "Android",
                      Description := "AVD: " ++ entry.Name, SafeLevel := "warning" }]
      else results
    else results) results

/-- Go `ScanAndroid`. -/
def ScanAndroid (env : Env) (fs : FS) : List CleanableItem :=
  let results := scanPaths fs (100 * 1024 * 1024) (androidPaths env) []
  let avdPath := getHomeDir env ++ [".android", "avd"]
  if pathExists fs avdPath then
    match ReadDir fs avdPath with
    | some entries => scanAvdEntries fs avdPath entries results
    | none => results
  else results

/-- The list `basePaths` of `ScanVSCode`, by platform. -/
def vscodeBasePaths (env : Env) : List Path :=
  let home := getHomeDir env
  if env.GOOS = "darwin" then
    [home ++ ["Library", "Application Support", "Code"],
     home ++ ["Library", "Application Support", "Cursor"]]
  else if env.GOOS = "windows" then
    [env.APPDATA ++ ["Code"], env.APPDATA ++ ["Cursor"]]
  else if env.GOOS = "linux" then
    let configDir := home ++ [".config"]
    [configDir ++ ["Code"], configDir ++ ["Cursor"]]
  else []

/-- The list `cacheSubdirs` of `ScanVSCode`. -/
def cacheSubdirs : List String :=
  ["CachedData", "Code Cache", "CachedExtensions", "CachedExtensionVSIXs"]

/-- The candidates of `ScanVSCode`, in the order its nested loops visit them, each with
the category, description and safety level the loop body gives its finding. -/
def vscodePaths (env : Env) : List PathSpec :=
  (vscodeBasePaths env).flatMap (fun basePath =>
    cacheSubdirs.map (fun subdir =>
      ⟨basePath ++ [subdir], "VS Code", Base basePath ++ " " ++ subdir, "safe"⟩))

/-- Go `ScanVSCode`. -/
def ScanVSCode (env : Env) (fs : FS) : List CleanableItem :=
  scanPaths fs (50 * 1024 * 1024) (vscodePaths env) []

/-- Go `ScanAll`. -/
def ScanAll (env : Env) (fs : FS) : List CleanableItem :=
  ScanAntigravity env fs ++ ScanFlutter env fs [] ++ ScanXcode env fs ++ ScanAndroid env fs
    ++ ScanVSCode env fs

/-! ## ui.go: the selection workflow -/

/-- Go `map[int]bool`, as an association list in which the first entry of a key is the
current one. Every list stands for a map: its keys are the first components, and a
key that is absent reads as false, the zero value. -/
structure SelMap where
  entries : List (Int × Bool)
deriving Repr

/-- Go `make(map[int]bool)`. -/
def SelMap.empty : SelMap := ⟨[]⟩

/-- The value stored under a key, if the key is present. -/
def SelMap.lookup (m : SelMap) (k : Int) : Option Bool := m.entries.lookup k

/-- Go `m[k]`. -/
def SelMap.get (m : SelMap) (k : Int) : Bool := (m.lookup k).getD false

/-- Go `m[k] = v`. -/
def SelMap.set (m : SelMap) (k : Int) (v : Bool) : SelMap := ⟨(k, v) :: m.entries⟩

/-- Whether a `range` over the map meets a true value: some key of the map currently
reads as true. -/
def SelMap.anyTrue (m : SelMap) : Bool := m.entries.any (fun kv => m.get kv.1)

/-- Go struct `model`. -/
structure model where
  items : List CleanableItem
  cursor : Int
  selected : SelMap
  quit : Bool
  confirm : Bool

/-- Go `initialModel`. -/
def initialModel (items : List CleanableItem) : model :=
  { items := items, cursor := 0, selected := SelMap.empty, quit := false, confirm := false }

/-- A message of the event loop: a key press with the name `msg.String()` gives it, or
any other message. -/
inductive Msg where
  | key (name : String)
  | other
deriving DecidableEq, Repr

/-- The command `Update` returns: nil or `tea.Quit`. -/
inductive Cmd where
  | nil
  | Quit
deriving DecidableEq, Repr

/-- The first loop of the toggle-all case: whether every index of the list is selected. -/
def allSelected (m : model) : Bool :=
  (List.range m.items.length).all (fun (i : Nat) => m.selected.get (i : Int))

/-- The second loop of the toggle-all case: every index of the list is set to `v`. -/
def setAll (m : model) (v : Bool) : SelMap :=
  (List.range m.items.length).foldl (fun sel (i : Nat) => sel.set (i : Int) v) m.selected

/-- The loop of the select-all-safe case. -/
def selectSafe (m : model) : SelMap :=
  m.items.enum.foldl
    (fun sel (p : Nat × CleanableItem) => sel.set (p.1 : Int) (decide (p.2.SafeLevel = "safe")))
    m.selected

/-- Go `model.Update`. -/
def Update (m : model) (msg : Msg) : model × Cmd :=
  match msg with
  | .key s =>
    if s = "ctrl+c" ∨ s = "q" then ({ m with quit := true }, Cmd.Quit)
    else if s = "up" ∨ s = "k" then
      (if m.cursor > 0 then { m with cursor := m.cursor - 1 } else m, Cmd.nil)
    else if s = "down" ∨ s = "j" then
      (if m.cursor < (m.items.length : Int) - 1 then { m with cursor := m.cursor + 1 } else m,
        Cmd.nil)
    else if s = " " then
      ({ m with selected := m.selected.set m.cursor (!m.selected.get m.cursor) }, Cmd.nil)
    else if s = "a" then
      ({ m with selected := setAll m (!allSelected m) }, Cmd.nil)
    else if s = "s" then
      ({ m with selected := selectSafe m }, Cmd.nil)
    else if s = "enter" then
      if m.selected.anyTrue then ({ m with confirm := true }, Cmd.Quit) else (m, Cmd.nil)
    else (m, Cmd.nil)
  | .other => (m, Cmd.nil)

/-- The event loop `p.Run()` of the terminal program on a stream of messages: messages
are handed to `Update` until it returns the quit command, and the model at that point is
the final model. The result is none when `Run` returns an error instead; a stream that
ends before any quit command is such a run. -/
def Run (m : model) : List Msg → Option model
  | [] => none
  | msg :: rest =>
    match Update m msg with
    | (m1, Cmd.Quit) => some m1
    | (m1, Cmd.nil) => Run m1 rest

/-- The last loop of `SelectItems`: the items whose index is selected, in order. -/
def collectSelected (items : List CleanableItem) (selected : SelMap) : List CleanableItem :=
  items.enum.foldl
    (fun acc (p : Nat × CleanableItem) => if selected.get (p.1 : Int) then acc ++ [p.2] else acc)
    []

/-- The function literal `SelectItems` hands to `sort.Slice`, as a function of the two
items it compares: `items[i].Size > items[j].Size`. -/
def sizeLess (a b : CleanableItem) : Bool := decide (a.Size > b.Size)

/-- The type of the library function `sort.Slice` on slices of items: it takes the
`less` function and the slice, and gives the slice as it is after the call. -/
abbrev SortSlice := (CleanableItem → CleanableItem → Bool) → List CleanableItem → List CleanableItem

/-- Go `SelectItems`. `sortSlice less items` is the library call `sort.Slice(items, less)`,
made here with the function literal of the source, `sizeLess`; the nil slice is the
empty list. -/
def SelectItems (sortSlice : SortSlice)
    (items : List CleanableItem) (msgs : List Msg) : List CleanableItem :=
  if items.length = 0 then []
  else
    let items := sortSlice sizeLess items
    match Run (initialModel items) msgs with
    | none => []
    | some fm => if fm.quit then [] else collectSelected items fm.selected

/-- The variables of the loop of `DisplayDryRun`: the lines printed and `totalSize`. -/
def dryRunStep (st : List Output × Int) (item : CleanableItem) : List Output × Int :=
  (st.1 ++ [Output.dryRunItem item.Description (toUint64 item.Size),
            Output.dryRunPath item.Path],
   wrapInt64 (st.2 + item.Size))

/-- Go `DisplayDryRun`. -/
def DisplayDryRun (items : List CleanableItem) : List Output :=
  let st := items.foldl dryRunStep ([Output.text "🔍 Dry Run - Would clean:", Output.text ""], 0)
  st.1 ++ [Output.text "", Output.text ruleLine, Output.wouldFree (toUint64 st.2)]

/-! ## main.go: the clean command -/

/-- The machine the command runs on: how a world state is seen by the scans, and
`os.RemoveAll`. -/
structure Host (σ : Type) where
  fsOf : σ → FS
  removeAll : σ → Path → σ × Bool

/-- The function `Run` of `cleanCmd`, with the flags `--all` and `--dry-run`: the world
afterwards and the lines printed. -/
def cleanCmdRun {σ : Type} (host : Host σ) (env : Env)
    (sortSlice : SortSlice)
    (cleanAll cleanDryRun : Bool) (msgs : List Msg) (w : σ) : σ × List Output :=
  let results := ScanAll env (host.fsOf w)
  if results.length = 0 then (w, [Output.text "No cleanable items found."])
  else
    let toClean := if cleanAll then results else SelectItems sortSlice results msgs
    if toClean.length = 0 then (w, [Output.text "No items selected for cleaning."])
    else if cleanDryRun then (w, DisplayDryRun toClean)
    else
      let st := CleanItems host.removeAll w toClean
      (st.world, st.out)

/-! ## Vocabulary of the statements -/

/-- The exact (unbounded) sum of the sizes of a list of items. -/
def sumSizes (items : List CleanableItem) : Int := (items.map (fun it => it.Size)).sum

/-- The items of a batch whose path can be deleted. -/
def deletableItems (deletable : Path → Bool) (items : List CleanableItem) :
    List CleanableItem :=
  items.filter (fun it => deletable it.Path)

/-- The lines the loop of `CleanItems` prints for one item. -/
def cleanLines (deletable : Path → Bool) (it : CleanableItem) : List Output :=
  [Output.removing it.Description,
   if deletable it.Path then Output.freed (toUint64 it.Size) else Output.failed]

/-- A world for examples: the list of the paths removed so far; the paths of
`stuck` cannot be removed. -/
def logRemoveAll (stuck : List Path) (w : List Path) (p : Path) : List Path × Bool :=
  if p ∈ stuck then (w, false) else (w ++ [p], true)

/-- An item for examples. -/
def mkItem (name : String) (size : Int) (level : String) : CleanableItem :=
  { Path := ["/", "tmp", name], Size := size, Category := "Test", Description := name,
    SafeLevel := level }

/-- The three findings of the end-to-end scenario of the specification: 500 MB (safe),
200 MB (caution), 10 MB (safe). -/
def scenarioItems : List CleanableItem :=
  [mkItem "a" 500000000 "safe", mkItem "b" 200000000 "caution", mkItem "c" 10000000 "safe"]

/-- The three findings of the scenario in another order, as a scan may return them:
10 MB, 500 MB, 200 MB. -/
def scenarioShuffled : List CleanableItem :=
  [mkItem "c" 10000000 "safe", mkItem "a" 500000000 "safe", mkItem "b" 200000000 "caution"]

/-- The states of the selection workflow reachable from the initial model of a list of
items by messages after which the program goes on (`Update` returned no quit command). -/
inductive Reachable (items : List CleanableItem) : model → Prop where
  | init : Reachable items (initialModel items)
  | step {m : model} (msg : Msg) :
      Reachable items m → (Update m msg).2 = Cmd.nil → Reachable items (Update m msg).1

/-- What holds of every state of the workflow reached on a non-empty list before the
program ends: the items are those it started with, the cursor is an index of the list,
every key of the selection map is an index of the list, and no flag is set. -/
def Browsing (items : List CleanableItem) (m : model) : Prop :=
  m.items = items ∧ 0 ≤ m.cursor ∧ m.cursor < (items.length : Int) ∧
  (∀ kv ∈ m.selected.entries, 0 ≤ kv.1 ∧ kv.1 < (items.length : Int)) ∧
  m.quit = false ∧ m.confirm = false

/-- What `sort.Slice` requires of its `less` function: a strict weak ordering (it is
irreflexive and transitive, and so is being unordered by it). -/
def StrictWeakOrder (less : CleanableItem → CleanableItem → Bool) : Prop :=
  (∀ a, less a a = false) ∧
  (∀ a b c, less a b = true → less b c = true → less a c = true) ∧
  (∀ a b c, less a b = false → less b c = false → less a c = false)

/-- What `sort.Slice` promises for a `less` function that meets its requirement: the
slice afterwards is a rearrangement of the slice before, and no element is `less` than
an element that stands before it. -/
def SortSliceContract (sortSlice : SortSlice) : Prop :=
  ∀ less : CleanableItem → CleanableItem → Bool, StrictWeakOrder less →
    ∀ l : List CleanableItem,
      (sortSlice less l).Perm l ∧ (sortSlice less l).Pairwise (fun a b => less b a = false)

/-- A stand-in for `sort.Slice` in examples: insertion sort by the given `less`
function. -/
def insertionSortSlice : SortSlice :=
  fun less l => l.insertionSort (fun a b => less b a = false)

/-- The two lines `DisplayDryRun` prints for one item. -/
def dryRunLines (it : CleanableItem) : List Output :=
  [Output.dryRunItem it.Description (toUint64 it.Size), Output.dryRunPath it.Path]

/-- A directory for examples, holding one regular file of the given size. -/
def dirOfSize (size : Int) : Node :=
  Node.dir 4096 (Entries.cons "data.bin" (Node.file FileKind.regular size) Entries.nil)

/-- An environment for examples: Linux, home directory `/home/u`. -/
def linuxEnv : Env :=
  { GOOS := "linux", UserHomeDir := some ["/", "home", "u"], APPDATA := [], LOCALAPPDATA := [] }

/-- A filesystem for examples: under `/home/u`, the three Android cache directories of
`ScanAndroid`, each holding one file of the given size. -/
def androidFS (size : Int) : FS :=
  { root := Node.dir 4096 (Entries.cons "home" (Node.dir 4096 (Entries.cons "u" (Node.dir 4096
      (Entries.cons ".android" (Node.dir 4096
          (Entries.cons "cache" (dirOfSize size) Entries.nil))
      (Entries.cons ".gradle" (Node.dir 4096
          (Entries.cons "caches" (dirOfSize size)
          (Entries.cons "wrapper" (Node.dir 4096
            (Entries.cons "dists" (dirOfSize size) Entries.nil)) Entries.nil)))
       Entries.nil))) Entries.nil)) Entries.nil)
    cwd := [] }

/-- The findings `ScanAll` returns on `androidFS size`, for a size above 100 MiB. -/
def androidFindings (size : Int) : List CleanableItem :=
  [ { Path := ["/", "home", "u", ".gradle", "caches"], Size := size, Category := "Android",
      Description := "Gradle caches", SafeLevel := "safe" },
    { Path := ["/", "home", "u", ".gradle", "wrapper", "dists"], Size := size,
      Category := "Android", Description := "Gradle distributions", SafeLevel := "caution" },
    { Path := ["/", "home", "u", ".android", "cache"], Size := size, Category := "Android",
      Description := "Android SDK cache", SafeLevel := "safe" } ]

/-- A host for examples whose world is the list of the paths removed so far and whose
filesystem view does not depend on it. -/
def logHost (fs : FS) : Host (List Path) :=
  { fsOf := fun _ => fs, removeAll := logRemoveAll [] }

/-- Whether the walk of `ScanFlutter` skips a directory of this name: a hidden directory
or `node_modules`. -/
def pruned (name : String) : Bool := name.front = '.' || name = "node_modules"

/-- The finding the walk of `ScanFlutter` builds for a build directory at a path. -/
def buildFinding (fs : FS) (path : Path) : CleanableItem :=
  { Path := path, Size := getDirSize fs path, Category := "Flutter",
    Description := "Build directory: " ++ Base (Dir path), SafeLevel := "safe" }

/-- The nodes a walk that starts at `root` on `node` and prunes hidden and
`node_modules` directories comes to: the start itself, and every entry of a readable
directory it comes to whose name is not pruned. -/
inductive Visits (root : Path) (node : Node) : Path → Node → Prop where
  | start : Visits root node root node
  | entry {p : Path} {sz : Int} {es : Entries} {name : String} {n : Node} :
      Visits root node p (Node.dir sz es) → pruned (Base p) = false →
      (name, n) ∈ es.toList → Visits root node (p ++ [name]) n

mutual
/-- The findings for build directories at or below a node, read off the tree: nothing
for a non-directory, an unreadable directory or a pruned directory; otherwise the
finding of the directory itself when it is named `build`, its parent holds
`pubspec.yaml` and its size is above 100 MiB, followed by those of its entries. -/
def buildsUnder (fs : FS) (path : Path) : Node → List CleanableItem
  | .dir _ es =>
    if pruned (Base path) then []
    else
      (if Base path = "build" ∧ pathExists fs (Dir path ++ ["pubspec.yaml"]) = true
            ∧ 100 * 1024 * 1024 < getDirSize fs path
        then [buildFinding fs path] else [])
      ++ buildsIn fs path es
  | .file _ _ => []
  | .unreadableDir _ => []
  | .bad => []
/-- The findings for build directories below the entries of a directory. -/
def buildsIn (fs : FS) (path : Path) : Entries → List CleanableItem
  | .nil => []
  | .cons name node rest => buildsUnder fs (path ++ [name]) node ++ buildsIn fs path rest
end

/-- The finding `ScanFlutter` builds for the pub cache. -/
def pubCacheFinding (env : Env) (fs : FS) : CleanableItem :=
  { Path := getHomeDir env ++ [".pub-cache"],
    Size := getDirSize fs (getHomeDir env ++ [".pub-cache"]), Category := "Flutter",
    Description := "Pub package cache", SafeLevel := "caution" }

/-- A filesystem for examples: under `/home/u/Documents`, `projectA` with a
`pubspec.yaml` and a build directory of 150 MB, and `projectB` with a build directory of
150 MB and no `pubspec.yaml`. -/
def flutterFS : FS :=
  { root := Node.dir 4096 (Entries.cons "home" (Node.dir 4096 (Entries.cons "u" (Node.dir 4096
      (Entries.cons "Documents" (Node.dir 4096
        (Entries.cons "projectA" (Node.dir 4096
          (Entries.cons "build" (dirOfSize 150000000)
          (Entries.cons "pubspec.yaml" (Node.file FileKind.regular 300) Entries.nil)))
        (Entries.cons "projectB" (Node.dir 4096
          (Entries.cons "build" (dirOfSize 150000000) Entries.nil))
         Entries.nil)))
       Entries.nil)) Entries.nil)) Entries.nil)
    cwd := [] }

/-- The finding a fixed-path scan builds for an entry of its table. -/
def findingOf (fs : FS) (p : PathSpec) : CleanableItem :=
  { Path := p.path, Size := getDirSize fs p.path, Category := p.category,
    Description := p.description, SafeLevel := p.safeLevel }

/-- The finding `ScanAndroid` builds for an entry of the AVD directory. -/
def avdFinding (fs : FS) (avdPath : Path) (entry : DirEntry) : CleanableItem :=
  { Path := avdPath ++ [entry.Name], Size := getDirSize fs (avdPath ++ [entry.Name]),
    Category := "Android", Description := "AVD: " ++ entry.Name, SafeLevel := "warning" }

/-- The entries of the AVD directory that `ScanAndroid` goes through: those `os.ReadDir`
lists when the directory exists and can be read, none otherwise. -/
def avdEntries (env : Env) (fs : FS) : List DirEntry :=
  if pathExists fs (getHomeDir env ++ [".android", "avd"]) then
    match ReadDir fs (getHomeDir env ++ [".android", "avd"]) with
    | some entries => entries
    | none => []
  else []

/-- A project directory for examples: `pubspec.yaml` and a `.dart_tool` directory holding
one file of the given size. -/
def dartToolApp (size : Int) : Node :=
  Node.dir 4096
    (Entries.cons ".dart_tool" (dirOfSize size)
    (Entries.cons "pubspec.yaml" (Node.file FileKind.regular 300) Entries.nil))

/-- A `Documents` directory for examples, holding the project `app`. -/
def dartToolDocuments (size : Int) : Node :=
  Node.dir 4096 (Entries.cons "app" (dartToolApp size) Entries.nil)

/-- A filesystem for examples: `/home/u/Documents` is `dartToolDocuments size`. -/
def dartToolFS (size : Int) : FS :=
  { root := Node.dir 4096 (Entries.cons "home" (Node.dir 4096 (Entries.cons "u" (Node.dir 4096
      (Entries.cons "Documents" (dartToolDocuments size) Entries.nil)) Entries.nil))
      Entries.nil)
    cwd := [] }

mutual
/-- The non-directory entries reachable from a node, each with its kind and the size
`lstat` reports for it, in walk order: the node itself when it is not a directory, the
entries below it when it is a directory that can be listed; nothing for a directory
whose listing fails or a name whose `lstat` fails. Symbolic links are not followed. -/
def Node.files : Node → List (FileKind × Int)
  | .file kind size => [(kind, size)]
  | .dir _ es => es.files
  | .unreadableDir _ => []
  | .bad => []
/-- The non-directory entries reachable through the entries of a directory. -/
def Entries.files : Entries → List (FileKind × Int)
  | .nil => []
  | .cons _ node rest => node.files ++ rest.files
end

/-- The non-directory entries reachable from a root path; none when the path does not
resolve. -/
def filesUnder (fs : FS) (root : Path) : List (FileKind × Int) :=
  match fs.resolve root with
  | some node => node.files
  | none => []

/-- The exact (unbounded) sum of the sizes of a list of entries. -/
def totalSize (files : List (FileKind × Int)) : Int := (files.map Prod.snd).sum

/-- The regular files of a list of entries. -/
def regularFiles (files : List (FileKind × Int)) : List (FileKind × Int) :=
  files.filter (fun f => decide (f.1 = FileKind.regular))

/-- A filesystem for examples: the directory `/cache` holds a regular file of 5 bytes,
a symbolic link of 7 bytes, a named pipe or device of 11 bytes, a name whose `lstat`
fails, a directory that cannot be listed, and a subdirectory with a regular file of 13
bytes. -/
def mixedFS : FS :=
  { root := Node.dir 4096 (Entries.cons "cache" (Node.dir 4096
      (Entries.cons "a.bin" (Node.file FileKind.regular 5)
      (Entries.cons "link" (Node.file (FileKind.symlink false) 7)
      (Entries.cons "pipe" (Node.file FileKind.special 11)
      (Entries.cons "gone" Node.bad
      (Entries.cons "locked" (Node.unreadableDir 4096)
      (Entries.cons "sub" (Node.dir 4096
        (Entries.cons "b.bin" (Node.file FileKind.regular 13) Entries.nil))
       Entries.nil))))))) Entries.nil)
    cwd := [] }

/-- A filesystem for examples: the directory `/cache` holds only regular files (5 and 13
bytes), next to a name whose `lstat` fails and a directory that cannot be listed. -/
def regularFS : FS :=
  { root := Node.dir 4096 (Entries.cons "cache" (Node.dir 4096
      (Entries.cons "a.bin" (Node.file FileKind.regular 5)
      (Entries.cons "gone" Node.bad
      (Entries.cons "locked" (Node.unreadableDir 4096)
      (Entries.cons "sub" (Node.dir 4096
        (Entries.cons "b.bin" (Node.file FileKind.regular 13) Entries.nil))
       Entries.nil))))) Entries.nil)
    cwd := [] }

/-- A filesystem for examples: the directory `/cache` holds two regular files of 2^62
bytes each. -/
def overflowFS : FS :=
  { root := Node.dir 4096 (Entries.cons "cache" (Node.dir 4096
      (Entries.cons "a.bin" (Node.file FileKind.regular (2 ^ 62))
      (Entries.cons "b.bin" (Node.file FileKind.regular (2 ^ 62)) Entries.nil)))
      Entries.nil)
    cwd := [] }

/-- An environment for examples in which `os.UserHomeDir` fails: Linux, no home
directory. -/
def noHomeEnv : Env :=
  { GOOS := "linux", UserHomeDir := none, APPDATA := [], LOCALAPPDATA := [] }

/-- A filesystem for examples: `androidFS size` with `/home/u` as working directory. -/
def androidCwdFS (size : Int) : FS :=
  { root := (androidFS size).root, cwd := ["home", "u"] }

/-- The findings `ScanAndroid` returns on `androidCwdFS size` when the home directory
does not resolve, for a size above 100 MiB: the paths are relative. -/
def relativeFindings (size : Int) : List CleanableItem :=
  [ { Path := [".gradle", "caches"], Size := size, Category := "Android",
      Description := "Gradle caches", SafeLevel := "safe" },
    { Path := [".gradle", "wrapper", "dists"], Size := size,
      Category := "Android", Description := "Gradle distributions", SafeLevel := "caution" },
    { Path := [".android", "cache"], Size := size, Category := "Android",
      Description := "Android SDK cache", SafeLevel := "safe" } ]

/-! # Theorems -/

/-! ## Machine integers -/

theorem wrapInt64_of_isInt64 {x : Int} (h : IsInt64 x) : wrapInt64 x = x := by
  unfold IsInt64 at h
  unfold wrapInt64
  omega

theorem wrapInt64_add_wrap (a b : Int) : wrapInt64 (wrapInt64 a + b) = wrapInt64 (a + b) := by
  unfold wrapInt64
  omega

theorem wrapInt64_zero : wrapInt64 0 = 0 := by decide

/-! ## The removal executor -/

theorem cleanStep_eq {σ : Type} (removeAll : σ → Path → σ × Bool) (deletable : Path → Bool)
    (h : ∀ w p, (removeAll w p).2 = deletable p) (st : CleanState σ) (it : CleanableItem) :
    cleanStep removeAll st it =
      { world := (removeAll st.world it.Path).1
        out := st.out ++ cleanLines deletable it
        totalCleaned := if deletable it.Path then wrapInt64 (st.totalCleaned + it.Size)
                        else st.totalCleaned
        successCount := st.successCount + (if deletable it.Path then 1 else 0)
        failCount := st.failCount + (if deletable it.Path then 0 else 1) } := by
  unfold cleanStep cleanLines
  simp only [h]
  cases deletable it.Path <;> simp

theorem foldl_cleanStep {σ : Type} (removeAll : σ → Path → σ × Bool) (deletable : Path → Bool)
    (h : ∀ w p, (removeAll w p).2 = deletable p) (items : List CleanableItem) :
    ∀ (st : CleanState σ) (t : Int), st.totalCleaned = wrapInt64 t →
      (items.foldl (cleanStep removeAll) st).world
          = (items.map (fun it => it.Path)).foldl (fun w p => (removeAll w p).1) st.world ∧
      (items.foldl (cleanStep removeAll) st).out
          = st.out ++ items.flatMap (cleanLines deletable) ∧
      (items.foldl (cleanStep removeAll) st).totalCleaned
          = wrapInt64 (t + sumSizes (deletableItems deletable items)) ∧
      (items.foldl (cleanStep removeAll) st).successCount
          = st.successCount + (deletableItems deletable items).length ∧
      (items.foldl (cleanStep removeAll) st).failCount
          = st.failCount + (items.length - (deletableItems deletable items).length) := by
  induction items with
  | nil =>
    intro st t ht
    simp [sumSizes, deletableItems, ht]
  | cons it rest ih =>
    intro st t ht
    have hlen : (deletableItems deletable rest).length ≤ rest.length := by
      unfold deletableItems
      exact List.length_filter_le _ _
    rw [List.foldl_cons, cleanStep_eq removeAll deletable h]
    by_cases hd : deletable it.Path = true
    · obtain ⟨h1, h2, h3, h4, h5⟩ := ih
        { world := (removeAll st.world it.Path).1
          out := st.out ++ cleanLines deletable it
          totalCleaned := if deletable it.Path then wrapInt64 (st.totalCleaned + it.Size)
                          else st.totalCleaned
          successCount := st.successCount + (if deletable it.Path then 1 else 0)
          failCount := st.failCount + (if deletable it.Path then 0 else 1) }
        (t + it.Size) (by simp [hd, ht, wrapInt64_add_wrap])
      refine ⟨by simpa using h1, by simpa [List.append_assoc] using h2, ?_, ?_, ?_⟩
      · rw [h3]
        simp [deletableItems, sumSizes, hd, List.filter_cons, add_assoc]
      · rw [h4]
        simp [deletableItems, hd, List.filter_cons]
        omega
      · rw [h5]
        simp only [deletableItems, List.filter_cons, hd, if_true, List.length_cons] at hlen ⊢
        simp
    · obtain ⟨h1, h2, h3, h4, h5⟩ := ih
        { world := (removeAll st.world it.Path).1
          out := st.out ++ cleanLines deletable it
          totalCleaned := if deletable it.Path then wrapInt64 (st.totalCleaned + it.Size)
                          else st.totalCleaned
          successCount := st.successCount + (if deletable it.Path then 1 else 0)
          failCount := st.failCount + (if deletable it.Path then 0 else 1) }
        t (by simp [hd, ht])
      refine ⟨by simpa using h1, by simpa [List.append_assoc] using h2, ?_, ?_, ?_⟩
      · rw [h3]
        simp [deletableItems, sumSizes, hd, List.filter_cons]
      · rw [h4]
        simp [deletableItems, hd, List.filter_cons]
      · rw [h5]
        simp only [deletableItems, List.filter_cons, hd, List.length_cons] at hlen ⊢
        simp
        omega

/-- C1 (amended). For every batch and every assignment `deletable` of which paths
`os.RemoveAll` can delete, `CleanItems` calls `os.RemoveAll` on the path of every item
once, in input order, whatever the earlier outcomes (the final world is the fold of the
removals over the paths, and one pair of lines is printed for each item); it ends with
`successCount` the number M of deletable items and `failCount` N - M; `totalCleaned` is
the sum of the sizes of the M removed items reduced to the `int64` range, which is the
exact sum whenever that sum fits in an `int64`; and the three totals are the same for
every permutation of the batch. -/
theorem CleanItems_summary {σ : Type} (removeAll : σ → Path → σ × Bool)
    (deletable : Path → Bool) (h : ∀ w p, (removeAll w p).2 = deletable p)
    (w : σ) (items : List CleanableItem) :
    (CleanItems removeAll w items).world
        = (items.map (fun it => it.Path)).foldl (fun w p => (removeAll w p).1) w ∧
    (CleanItems removeAll w items).out
        = [Output.text "\n🧹 Cleaning..."] ++ items.flatMap (cleanLines deletable)
          ++ [Output.text "",
              Output.done (deletableItems deletable items).length
                (toUint64 (wrapInt64 (sumSizes (deletableItems deletable items))))]
          ++ (if items.length - (deletableItems deletable items).length > 0
              then [Output.failedCount (items.length - (deletableItems deletable items).length)]
              else []) ∧
    (CleanItems removeAll w items).successCount = (deletableItems deletable items).length ∧
    (CleanItems removeAll w items).failCount
        = items.length - (deletableItems deletable items).length ∧
    (CleanItems removeAll w items).totalCleaned
        = wrapInt64 (sumSizes (deletableItems deletable items)) ∧
    (IsInt64 (sumSizes (deletableItems deletable items)) →
      (CleanItems removeAll w items).totalCleaned
        = sumSizes (deletableItems deletable items)) ∧
    (∀ items2 : List CleanableItem, items2.Perm items →
      (CleanItems removeAll w items2).successCount
          = (CleanItems removeAll w items).successCount ∧
      (CleanItems removeAll w items2).failCount
          = (CleanItems removeAll w items).failCount ∧
      (CleanItems removeAll w items2).totalCleaned
          = (CleanItems removeAll w items).totalCleaned) := by
  have key : ∀ l : List CleanableItem,
      (CleanItems removeAll w l).world
          = (l.map (fun it => it.Path)).foldl (fun w p => (removeAll w p).1) w ∧
      (cleanLoop removeAll w l).out
          = [Output.text "\n🧹 Cleaning..."] ++ l.flatMap (cleanLines deletable) ∧
      (CleanItems removeAll w l).totalCleaned
          = wrapInt64 (sumSizes (deletableItems deletable l)) ∧
      (CleanItems removeAll w l).successCount = (deletableItems deletable l).length ∧
      (CleanItems removeAll w l).failCount
          = l.length - (deletableItems deletable l).length := by
    intro l
    have := foldl_cleanStep removeAll deletable h l
      { world := w, out := [Output.text "\n🧹 Cleaning..."], totalCleaned := 0,
        successCount := 0, failCount := 0 } 0 wrapInt64_zero.symm
    simpa [CleanItems, cleanLoop] using this
  obtain ⟨k1, k2, k3, k4, k5⟩ := key items
  refine ⟨k1, ?_, k4, k5, k3, ?_, ?_⟩
  · have e4 : (cleanLoop removeAll w items).successCount
        = (deletableItems deletable items).length := k4
    have e5 : (cleanLoop removeAll w items).failCount
        = items.length - (deletableItems deletable items).length := k5
    have e3 : (cleanLoop removeAll w items).totalCleaned
        = wrapInt64 (sumSizes (deletableItems deletable items)) := k3
    simp only [CleanItems, k2, e3, e4, e5]
    split <;> simp
  · intro hfit
    rw [k3, wrapInt64_of_isInt64 hfit]
  · intro items2 hp
    obtain ⟨_, _, j3, j4, j5⟩ := key items2
    have hf : (deletableItems deletable items2).Perm (deletableItems deletable items) :=
      hp.filter _
    have hs : sumSizes (deletableItems deletable items2)
        = sumSizes (deletableItems deletable items) :=
      (hf.map _).sum_eq
    rw [j3, j4, j5, k3, k4, k5, hs, hf.length_eq, hp.length_eq]
    exact ⟨rfl, rfl, rfl⟩

/-- C1, the scenario of the specification: the batch of a 500 MB and a 10 MB item whose
10 MB path cannot be deleted ends with one success, one failure and 500 MB freed. -/
theorem CleanItems_summary_witness :
    (∀ (w : List Path) (p : Path),
      (logRemoveAll [["/", "tmp", "small"]] w p).2 = decide (p ∉ [["/", "tmp", "small"]])) ∧
    (CleanItems (logRemoveAll [["/", "tmp", "small"]]) []
      [mkItem "big" 500000000 "safe", mkItem "small" 10000000 "safe"]).successCount = 1 ∧
    (CleanItems (logRemoveAll [["/", "tmp", "small"]]) []
      [mkItem "big" 500000000 "safe", mkItem "small" 10000000 "safe"]).failCount = 1 ∧
    (CleanItems (logRemoveAll [["/", "tmp", "small"]]) []
      [mkItem "big" 500000000 "safe", mkItem "small" 10000000 "safe"]).totalCleaned
        = 500000000 ∧
    (CleanItems (logRemoveAll [["/", "tmp", "small"]]) []
      [mkItem "big" 500000000 "safe", mkItem "small" 10000000 "safe"]).world
        = [["/", "tmp", "big"]] := by
  have hyp : ∀ (w : List Path) (p : Path),
      (logRemoveAll [["/", "tmp", "small"]] w p).2 = decide (p ∉ [["/", "tmp", "small"]]) := by
    intro w p
    unfold logRemoveAll
    split <;> simp_all
  obtain ⟨hw, _, hs, hf, _, ht, _⟩ := CleanItems_summary
    (logRemoveAll [["/", "tmp", "small"]]) (fun p => decide (p ∉ [["/", "tmp", "small"]]))
    hyp [] [mkItem "big" 500000000 "safe", mkItem "small" 10000000 "safe"]
  refine ⟨hyp, ?_, ?_, ?_, ?_⟩
  · rw [hs]; decide
  · rw [hf]; decide
  · rw [ht (by unfold IsInt64; decide)]; decide
  · rw [hw]; decide

/-- C1, as stated, fails on overflow: two deletable items of 2^62 bytes each are both
removed, their sizes sum to 2^63, and `totalCleaned` ends as -2^63. -/
theorem CleanItems_total_overflow :
    (CleanItems (logRemoveAll []) []
      [mkItem "a" (2 ^ 62) "safe", mkItem "b" (2 ^ 62) "safe"]).successCount = 2 ∧
    sumSizes [mkItem "a" (2 ^ 62) "safe", mkItem "b" (2 ^ 62) "safe"] = 2 ^ 63 ∧
    (CleanItems (logRemoveAll []) []
      [mkItem "a" (2 ^ 62) "safe", mkItem "b" (2 ^ 62) "safe"]).totalCleaned = -(2 ^ 63) ∧
    (CleanItems (logRemoveAll []) []
      [mkItem "a" (2 ^ 62) "safe", mkItem "b" (2 ^ 62) "safe"]).totalCleaned
      ≠ sumSizes [mkItem "a" (2 ^ 62) "safe", mkItem "b" (2 ^ 62) "safe"] := by
  decide

theorem SelMap.lookup_set (m : SelMap) (k j : Int) (v : Bool) :
    (m.set k v).lookup j = if j = k then some v else m.lookup j := by
  unfold SelMap.set SelMap.lookup
  simp only [List.lookup_cons]
  by_cases h : j = k
  · subst h; simp
  · have : (j == k) = false := by simpa using h
    simp [this, h]

theorem SelMap.get_set (m : SelMap) (k j : Int) (v : Bool) :
    (m.set k v).get j = if j = k then v else m.get j := by
  unfold SelMap.get
  rw [SelMap.lookup_set]
  split <;> rfl

theorem SelMap.lookup_isSome_iff (m : SelMap) (k : Int) :
    (m.lookup k).isSome = true ↔ ∃ kv ∈ m.entries, kv.1 = k := by
  obtain ⟨es⟩ := m
  unfold SelMap.lookup
  induction es with
  | nil => simp
  | cons e rest ih =>
    obtain ⟨a, b⟩ := e
    simp only [List.lookup_cons]
    by_cases h : k = a
    · subst h; simp
    · have : (k == a) = false := by simpa using h
      simp only [this, ih]
      constructor
      · rintro ⟨kv, hkv, rfl⟩
        exact ⟨kv, List.mem_cons_of_mem _ hkv, rfl⟩
      · rintro ⟨kv, hkv, rfl⟩
        rcases List.mem_cons.mp hkv with h1 | h1
        · subst h1; exact absurd rfl h
        · exact ⟨kv, h1, rfl⟩

theorem SelMap.get_true_mem (m : SelMap) (k : Int) (h : m.get k = true) :
    ∃ kv ∈ m.entries, kv.1 = k := by
  apply (SelMap.lookup_isSome_iff m k).mp
  unfold SelMap.get at h
  cases hl : m.lookup k with
  | none => rw [hl] at h; simp at h
  | some v => rfl

theorem SelMap.anyTrue_iff (m : SelMap) : m.anyTrue = true ↔ ∃ k : Int, m.get k = true := by
  unfold SelMap.anyTrue
  rw [List.any_eq_true]
  constructor
  · rintro ⟨kv, _, h⟩
    exact ⟨kv.1, h⟩
  · rintro ⟨k, h⟩
    obtain ⟨kv, hkv, rfl⟩ := SelMap.get_true_mem m k h
    exact ⟨kv, hkv, h⟩

theorem foldl_set_range_lookup (v : Bool) (sel : SelMap) (n : Nat) (j : Int) :
    ((List.range n).foldl (fun sel (i : Nat) => sel.set (i : Int) v) sel).lookup j
      = if 0 ≤ j ∧ j < (n : Int) then some v else sel.lookup j := by
  induction n with
  | zero =>
    have : ¬ (0 ≤ j ∧ j < ((0 : Nat) : Int)) := by omega
    rw [if_neg this]
    rfl
  | succ n ih =>
    rw [List.range_succ, List.foldl_append, List.foldl_cons, List.foldl_nil,
      SelMap.lookup_set, ih]
    by_cases h1 : j = (n : Int)
    · have : 0 ≤ j ∧ j < ((n + 1 : Nat) : Int) := by omega
      rw [if_pos h1, if_pos this]
    · by_cases h2 : 0 ≤ j ∧ j < (n : Int)
      · have : 0 ≤ j ∧ j < ((n + 1 : Nat) : Int) := by omega
        rw [if_neg h1, if_pos h2, if_pos this]
      · have : ¬ (0 ≤ j ∧ j < ((n + 1 : Nat) : Int)) := by omega
        rw [if_neg h1, if_neg h2, if_neg this]

theorem setAll_lookup (m : model) (v : Bool) (j : Int) :
    (setAll m v).lookup j
      = if 0 ≤ j ∧ j < (m.items.length : Int) then some v else m.selected.lookup j := by
  unfold setAll
  exact foldl_set_range_lookup v m.selected m.items.length j

theorem setAll_get (m : model) (v : Bool) (j : Int) :
    (setAll m v).get j
      = if 0 ≤ j ∧ j < (m.items.length : Int) then v else m.selected.get j := by
  unfold SelMap.get
  rw [setAll_lookup]
  split <;> rfl

theorem allSelected_iff (m : model) :
    allSelected m = true ↔ ∀ i : Nat, i < m.items.length → m.selected.get (i : Int) = true := by
  unfold allSelected
  simp [List.all_eq_true]

theorem foldl_safe_lookup_other (l : List CleanableItem) :
    ∀ (n : Nat) (sel : SelMap) (j : Int), (j < (n : Int) ∨ (n : Int) + l.length ≤ j) →
      ((l.enumFrom n).foldl
        (fun sel (p : Nat × CleanableItem) => sel.set (p.1 : Int) (decide (p.2.SafeLevel = "safe"))) sel).lookup j
        = sel.lookup j := by
  induction l with
  | nil => intro n sel j _; rfl
  | cons it rest ih =>
    intro n sel j hj
    rw [List.enumFrom_cons, List.foldl_cons, ih (n + 1) _ j, SelMap.lookup_set]
    · have : j ≠ (n : Int) := by
        simp only [List.length_cons] at hj
        omega
      simp [this]
    · simp only [List.length_cons] at hj
      push_cast at hj ⊢
      omega

theorem foldl_safe_lookup (l : List CleanableItem) :
    ∀ (n : Nat) (sel : SelMap) (i : Nat) (hi : i < l.length),
      ((l.enumFrom n).foldl
        (fun sel (p : Nat × CleanableItem) => sel.set (p.1 : Int) (decide (p.2.SafeLevel = "safe"))) sel).lookup
          ((n + i : Nat) : Int)
        = some (decide (l[i].SafeLevel = "safe")) := by
  induction l with
  | nil => intro n sel i hi; simp at hi
  | cons it rest ih =>
    intro n sel i hi
    rw [List.enumFrom_cons, List.foldl_cons]
    cases i with
    | zero =>
      rw [foldl_safe_lookup_other rest (n + 1) _ _ (by left; push_cast; omega),
        SelMap.lookup_set]
      simp
    | succ i =>
      have hi2 : i < rest.length := by simpa using hi
      have := ih (n + 1) (sel.set (n : Int) (decide (it.SafeLevel = "safe"))) i hi2
      have e : ((n + (i + 1) : Nat) : Int) = ((n + 1 + i : Nat) : Int) := by
        push_cast; omega
      rw [e, this]
      simp

theorem selectSafe_lookup (m : model) (i : Nat) (hi : i < m.items.length) :
    (selectSafe m).lookup (i : Int) = some (decide (m.items[i].SafeLevel = "safe")) := by
  have := foldl_safe_lookup m.items 0 m.selected i hi
  simpa [selectSafe, List.enum] using this

theorem selectSafe_lookup_other (m : model) (j : Int)
    (hj : j < 0 ∨ (m.items.length : Int) ≤ j) :
    (selectSafe m).lookup j = m.selected.lookup j := by
  have := foldl_safe_lookup_other m.items 0 m.selected j (by simpa using hj)
  simpa [selectSafe, List.enum] using this

/-! ## The selection workflow: single events -/

theorem Update_quit (m : model) (k : String) (hk : k = "ctrl+c" ∨ k = "q") :
    Update m (Msg.key k) = ({ m with quit := true }, Cmd.Quit) := by
  unfold Update
  simp [hk]

theorem Update_a (m : model) :
    Update m (Msg.key "a") = ({ m with selected := setAll m (!allSelected m) }, Cmd.nil) := by
  unfold Update
  simp

theorem Update_s (m : model) :
    Update m (Msg.key "s") = ({ m with selected := selectSafe m }, Cmd.nil) := by
  unfold Update
  simp

theorem Update_enter (m : model) :
    Update m (Msg.key "enter")
      = if m.selected.anyTrue then ({ m with confirm := true }, Cmd.Quit) else (m, Cmd.nil) := by
  unfold Update
  simp

/-- C3. After the select-all-safe event (key "s"), whatever the model before it, the
selection flag of every index of the list is true exactly when the item at that index
has safety level "safe"; the flags of keys outside the list, the cursor, the items and
the machine state are untouched; and a second select-all-safe event changes no
flag. -/
theorem selectAllSafe_exact (m : model) :
    (Update m (Msg.key "s")).2 = Cmd.nil ∧
    (Update m (Msg.key "s")).1.items = m.items ∧
    (Update m (Msg.key "s")).1.cursor = m.cursor ∧
    (Update m (Msg.key "s")).1.quit = m.quit ∧
    (Update m (Msg.key "s")).1.confirm = m.confirm ∧
    (∀ (i : Nat) (hi : i < m.items.length),
      ((Update m (Msg.key "s")).1.selected.get (i : Int) = true
        ↔ m.items[i].SafeLevel = "safe")) ∧
    (∀ j : Int, (j < 0 ∨ (m.items.length : Int) ≤ j) →
      (Update m (Msg.key "s")).1.selected.lookup j = m.selected.lookup j) ∧
    (∀ j : Int,
      (Update (Update m (Msg.key "s")).1 (Msg.key "s")).1.selected.lookup j
        = (Update m (Msg.key "s")).1.selected.lookup j) := by
  rw [Update_s]
  refine ⟨rfl, rfl, rfl, rfl, rfl, ?_, ?_, ?_⟩
  · intro i hi
    simp [SelMap.get, selectSafe_lookup m i hi]
  · intro j hj
    exact selectSafe_lookup_other m j hj
  · intro j
    rw [Update_s]
    show (selectSafe { m with selected := selectSafe m }).lookup j = (selectSafe m).lookup j
    by_cases hj : j < 0 ∨ (m.items.length : Int) ≤ j
    · exact selectSafe_lookup_other { m with selected := selectSafe m } j hj
    · have h0 : 0 ≤ j := by omega
      have h1 : j.toNat < m.items.length := by omega
      have e : ((j.toNat : Nat) : Int) = j := Int.toNat_of_nonneg h0
      have a := selectSafe_lookup { m with selected := selectSafe m } j.toNat h1
      have b := selectSafe_lookup m j.toNat h1
      rw [e] at a b
      rw [a, b]

/-- C3, the scenario of the specification: on the items 500 MB (safe), 200 MB
(caution), 10 MB (safe), select-all-safe gives the selection of the indices 0 and 2,
from any prior selection, cursor and flags. -/
theorem selectAllSafe_scenario :
    (∀ (sel : SelMap) (cursor : Int) (q c : Bool),
      (Update ⟨scenarioItems, cursor, sel, q, c⟩ (Msg.key "s")).1.selected.get 0 = true ∧
      (Update ⟨scenarioItems, cursor, sel, q, c⟩ (Msg.key "s")).1.selected.get 1 = false ∧
      (Update ⟨scenarioItems, cursor, sel, q, c⟩ (Msg.key "s")).1.selected.get 2 = true) ∧
    scenarioItems.length = 3 := by
  refine ⟨?_, rfl⟩
  intro sel cursor q c
  obtain ⟨_, _, _, _, _, h, _, _⟩ := selectAllSafe_exact ⟨scenarioItems, cursor, sel, q, c⟩
  have h0 := h 0 (by show 0 < scenarioItems.length; decide)
  have h1 := h 1 (by show 1 < scenarioItems.length; decide)
  have h2 := h 2 (by show 2 < scenarioItems.length; decide)
  have s0 : scenarioItems[0].SafeLevel = "safe" := by decide
  have s1 : ¬ scenarioItems[1].SafeLevel = "safe" := by decide
  have s2 : scenarioItems[2].SafeLevel = "safe" := by decide
  refine ⟨h0.mpr s0, ?_, h2.mpr s2⟩
  cases hb : (Update ⟨scenarioItems, cursor, sel, q, c⟩ (Msg.key "s")).1.selected.get 1 with
  | false => rfl
  | true =>
    exact absurd (h1.mp hb) s1

/-- C5. The toggle-all event (key "a") is one global flip: when every item of the list
is selected, afterwards no item of the list is selected; otherwise afterwards every item
of the list is selected. The flags of keys outside the list, the cursor, the items and
the machine state (no quit command, quit and confirm flags as before) are untouched. -/
theorem toggleAll_global_flip (m : model) :
    (Update m (Msg.key "a")).2 = Cmd.nil ∧
    (Update m (Msg.key "a")).1.items = m.items ∧
    (Update m (Msg.key "a")).1.cursor = m.cursor ∧
    (Update m (Msg.key "a")).1.quit = m.quit ∧
    (Update m (Msg.key "a")).1.confirm = m.confirm ∧
    ((∀ i : Nat, i < m.items.length → m.selected.get (i : Int) = true) →
      ∀ i : Nat, i < m.items.length →
        (Update m (Msg.key "a")).1.selected.get (i : Int) = false) ∧
    ((∃ i : Nat, i < m.items.length ∧ m.selected.get (i : Int) = false) →
      ∀ i : Nat, i < m.items.length →
        (Update m (Msg.key "a")).1.selected.get (i : Int) = true) ∧
    (∀ j : Int, (j < 0 ∨ (m.items.length : Int) ≤ j) →
      (Update m (Msg.key "a")).1.selected.lookup j = m.selected.lookup j) := by
  rw [Update_a]
  refine ⟨rfl, rfl, rfl, rfl, rfl, ?_, ?_, ?_⟩
  · intro hall i hi
    have ha : allSelected m = true := (allSelected_iff m).mpr hall
    have hr : 0 ≤ (i : Int) ∧ (i : Int) < (m.items.length : Int) := by omega
    rw [setAll_get, if_pos hr, ha]
    rfl
  · rintro ⟨i0, hi0, hsel⟩ i hi
    have ha : allSelected m = false := by
      cases h : allSelected m with
      | false => rfl
      | true =>
        have := (allSelected_iff m).mp h i0 hi0
        rw [hsel] at this
        exact absurd this (by decide)
    have hr : 0 ≤ (i : Int) ∧ (i : Int) < (m.items.length : Int) := by omega
    rw [setAll_get, if_pos hr, ha]
    rfl
  · intro j hj
    have hr : ¬ (0 ≤ j ∧ j < (m.items.length : Int)) := by omega
    rw [setAll_lookup, if_neg hr]

theorem allSelected_setAll (m : model) (v : Bool) (hne : 0 < m.items.length) :
    allSelected { m with selected := setAll m v } = v := by
  cases hv : allSelected { m with selected := setAll m v } with
  | true =>
    have h := (allSelected_iff _).mp hv 0 hne
    have hr : 0 ≤ ((0 : Nat) : Int) ∧ ((0 : Nat) : Int) < (m.items.length : Int) := by omega
    rw [show ({ m with selected := setAll m v } : model).selected = setAll m v from rfl,
      setAll_get, if_pos hr] at h
    exact h.symm
  | false =>
    cases v with
    | false => rfl
    | true =>
      have : allSelected { m with selected := setAll m true } = true := by
        rw [allSelected_iff]
        intro i hi
        have hr : 0 ≤ (i : Int) ∧ (i : Int) < (m.items.length : Int) := by
          have : i < m.items.length := hi
          omega
        rw [show ({ m with selected := setAll m true } : model).selected = setAll m true
          from rfl, setAll_get, if_pos hr]
      rw [this] at hv
      exact absurd hv (by decide)

/-- C4 (amended). Two toggle-all events in a row, with no other event in between,
leave every item of the list selected when every item of the list was selected before
them, and leave no item of the list selected otherwise; flags of keys outside the list
are untouched. Hence the two events restore the original selection set exactly when
that set held every item of the list or none of them. -/
theorem toggleAll_twice (m : model) :
    (∀ i : Nat, i < m.items.length →
      (Update (Update m (Msg.key "a")).1 (Msg.key "a")).1.selected.get (i : Int)
        = allSelected m) ∧
    (∀ j : Int, (j < 0 ∨ (m.items.length : Int) ≤ j) →
      (Update (Update m (Msg.key "a")).1 (Msg.key "a")).1.selected.lookup j
        = m.selected.lookup j) ∧
    ((∀ j : Int,
        (Update (Update m (Msg.key "a")).1 (Msg.key "a")).1.selected.get j = m.selected.get j)
      ↔ ((∀ i : Nat, i < m.items.length → m.selected.get (i : Int) = true) ∨
         (∀ i : Nat, i < m.items.length → m.selected.get (i : Int) = false))) := by
  rw [Update_a]
  show (∀ i : Nat, i < m.items.length →
      (Update { m with selected := setAll m (!allSelected m) } (Msg.key "a")).1.selected.get
        (i : Int) = allSelected m) ∧
    (∀ j : Int, (j < 0 ∨ (m.items.length : Int) ≤ j) →
      (Update { m with selected := setAll m (!allSelected m) } (Msg.key "a")).1.selected.lookup j
        = m.selected.lookup j) ∧
    ((∀ j : Int,
        (Update { m with selected := setAll m (!allSelected m) } (Msg.key "a")).1.selected.get j
          = m.selected.get j)
      ↔ ((∀ i : Nat, i < m.items.length → m.selected.get (i : Int) = true) ∨
         (∀ i : Nat, i < m.items.length → m.selected.get (i : Int) = false)))
  rw [Update_a]
  have inside : ∀ i : Nat, i < m.items.length →
      (setAll { m with selected := setAll m (!allSelected m) }
        (!allSelected { m with selected := setAll m (!allSelected m) })).get (i : Int)
        = allSelected m := by
    intro i hi
    have hr : 0 ≤ (i : Int) ∧ (i : Int) < (m.items.length : Int) := by omega
    rw [setAll_get, if_pos hr, allSelected_setAll m _ (by omega)]
    simp
  have outside : ∀ j : Int, (j < 0 ∨ (m.items.length : Int) ≤ j) →
      (setAll { m with selected := setAll m (!allSelected m) }
        (!allSelected { m with selected := setAll m (!allSelected m) })).lookup j
        = m.selected.lookup j := by
    intro j hj
    have hr : ¬ (0 ≤ j ∧ j < (m.items.length : Int)) := by omega
    rw [setAll_lookup, if_neg hr]
    show (setAll m (!allSelected m)).lookup j = m.selected.lookup j
    rw [setAll_lookup, if_neg hr]
  refine ⟨inside, outside, ?_⟩
  constructor
  · intro hsame
    cases ha : allSelected m with
    | true => exact Or.inl ((allSelected_iff m).mp ha)
    | false =>
      right
      intro i hi
      rw [← hsame (i : Int)]
      exact (inside i hi).trans ha
  · intro hcase j
    by_cases hj : j < 0 ∨ (m.items.length : Int) ≤ j
    · have := outside j hj
      unfold SelMap.get
      rw [this]
    · have h0 : 0 ≤ j := by omega
      have h1 : j.toNat < m.items.length := by omega
      have e : ((j.toNat : Nat) : Int) = j := Int.toNat_of_nonneg h0
      have hin := inside j.toNat h1
      rw [e] at hin
      show (setAll { m with selected := setAll m (!allSelected m) }
        (!allSelected { m with selected := setAll m (!allSelected m) })).get j
        = m.selected.get j
      rw [hin]
      rcases hcase with hall | hnone
      · have := hall j.toNat h1
        rw [e] at this
        rw [this]
        exact (allSelected_iff m).mpr hall
      · have := hnone j.toNat h1
        rw [e] at this
        rw [this]
        cases ha : allSelected m with
        | false => rfl
        | true =>
          have h2 := (allSelected_iff m).mp ha j.toNat h1
          rw [e] at h2
          rw [h2] at this
          exact absurd this (by decide)

/-- C4, as stated, fails for a selection that holds some items of the list and not all:
with two items listed and only index 0 selected, the first toggle-all selects both and
the second clears both, so index 0, selected before, is not selected after. -/
theorem toggleAll_twice_not_restoring :
    (⟨[mkItem "a" 2 "safe", mkItem "b" 1 "safe"], 0, SelMap.empty.set 0 true, false, false⟩
      : model).selected.get 0 = true ∧
    (Update (Update
      ⟨[mkItem "a" 2 "safe", mkItem "b" 1 "safe"], 0, SelMap.empty.set 0 true, false, false⟩
      (Msg.key "a")).1 (Msg.key "a")).1.selected.get 0 = false ∧
    (Update (Update
      ⟨[mkItem "a" 2 "safe", mkItem "b" 1 "safe"], 0, SelMap.empty.set 0 true, false, false⟩
      (Msg.key "a")).1 (Msg.key "a")).1.selected.get 1 = false := by
  decide

/-! ## The selection workflow: reachable states -/

theorem foldl_set_range_entries (v : Bool) (sel : SelMap) (n : Nat) :
    ∀ kv ∈ ((List.range n).foldl (fun sel (i : Nat) => sel.set (i : Int) v) sel).entries,
      kv ∈ sel.entries ∨ (0 ≤ kv.1 ∧ kv.1 < (n : Int)) := by
  induction n with
  | zero => intro kv h; exact Or.inl h
  | succ n ih =>
    intro kv h
    rw [List.range_succ, List.foldl_append, List.foldl_cons, List.foldl_nil] at h
    rcases List.mem_cons.mp h with h1 | h1
    · right
      subst h1
      show 0 ≤ (n : Int) ∧ (n : Int) < ((n + 1 : Nat) : Int)
      omega
    · rcases ih kv h1 with h2 | h2
      · exact Or.inl h2
      · right
        push_cast
        omega

theorem foldl_safe_entries (l : List CleanableItem) :
    ∀ (n : Nat) (sel : SelMap),
      ∀ kv ∈ ((l.enumFrom n).foldl
        (fun sel (p : Nat × CleanableItem) =>
          sel.set (p.1 : Int) (decide (p.2.SafeLevel = "safe"))) sel).entries,
        kv ∈ sel.entries ∨ ((n : Int) ≤ kv.1 ∧ kv.1 < (n : Int) + l.length) := by
  induction l with
  | nil => intro n sel kv h; exact Or.inl h
  | cons it rest ih =>
    intro n sel kv h
    rw [List.enumFrom_cons, List.foldl_cons] at h
    rcases ih (n + 1) _ kv h with h1 | h1
    · rcases List.mem_cons.mp h1 with h2 | h2
      · right
        subst h2
        simp only [List.length_cons]
        push_cast
        omega
      · exact Or.inl h2
    · right
      simp only [List.length_cons]
      push_cast at h1 ⊢
      omega

theorem Update_flags (m : model) (msg : Msg) :
    (Update m msg).1.items = m.items ∧
    ((Update m msg).2 = Cmd.nil →
      (Update m msg).1.quit = m.quit ∧ (Update m msg).1.confirm = m.confirm) ∧
    ((Update m msg).2 = Cmd.Quit →
      ((Update m msg).1.quit = true ∧ (Update m msg).1.confirm = m.confirm) ∨
      ((Update m msg).1.quit = m.quit ∧ (Update m msg).1.confirm = true)) := by
  cases msg with
  | other => simp [Update]
  | key s =>
    unfold Update
    simp only []
    split_ifs <;> simp

theorem Update_browsing (items : List CleanableItem) (m : model) (msg : Msg)
    (hb : Browsing items m) (hc : (Update m msg).2 = Cmd.nil) :
    Browsing items (Update m msg).1 := by
  obtain ⟨hi, hc0, hc1, hk, hq, hcf⟩ := hb
  cases msg with
  | other => exact ⟨hi, hc0, hc1, hk, hq, hcf⟩
  | key s =>
    unfold Update at hc ⊢
    simp only [] at hc ⊢
    split_ifs at hc ⊢ with h1 h2 h3 h4 h5 h6 h7 h8 h9 h10
    all_goals first
      | exact absurd hc (by decide)
      | exact ⟨hi, hc0, hc1, hk, hq, hcf⟩
      | skip
    · exact ⟨hi, by show 0 ≤ m.cursor - 1; omega, by show m.cursor - 1 < _; omega, hk, hq, hcf⟩
    · refine ⟨hi, by show 0 ≤ m.cursor + 1; omega, ?_, hk, hq, hcf⟩
      show m.cursor + 1 < _
      rw [hi] at *
      omega
    · refine ⟨hi, hc0, hc1, ?_, hq, hcf⟩
      intro kv hkv
      rcases List.mem_cons.mp hkv with h | h
      · subst h; exact ⟨hc0, hc1⟩
      · exact hk kv h
    · refine ⟨hi, hc0, hc1, ?_, hq, hcf⟩
      intro kv hkv
      rcases foldl_set_range_entries _ m.selected m.items.length kv hkv with h | h
      · exact hk kv h
      · rw [hi] at h; exact h
    · refine ⟨hi, hc0, hc1, ?_, hq, hcf⟩
      intro kv hkv
      have hkv2 : kv ∈ ((m.items.enumFrom 0).foldl
        (fun sel (p : Nat × CleanableItem) =>
          sel.set (p.1 : Int) (decide (p.2.SafeLevel = "safe"))) m.selected).entries := hkv
      rcases foldl_safe_entries m.items 0 m.selected kv hkv2 with h | h
      · exact hk kv h
      · rw [hi] at h
        constructor
        · omega
        · omega

theorem initialModel_browsing (items : List CleanableItem) (hne : items ≠ []) :
    Browsing items (initialModel items) := by
  refine ⟨rfl, le_refl _, ?_, ?_, rfl, rfl⟩
  · have : 0 < items.length := List.length_pos.mpr hne
    show (0 : Int) < _
    omega
  · intro kv h
    exact absurd h (List.not_mem_nil _)

theorem Reachable.browsing {items : List CleanableItem} (hne : items ≠ []) {m : model}
    (hr : Reachable items m) : Browsing items m := by
  induction hr with
  | init => exact initialModel_browsing items hne
  | step msg _ hc ih => exact Update_browsing items _ msg ih hc

theorem Browsing.anyTrue_listed {items : List CleanableItem} {m : model} (hb : Browsing items m) :
    m.selected.anyTrue = true
      ↔ ∃ i : Nat, i < items.length ∧ m.selected.get (i : Int) = true := by
  rw [SelMap.anyTrue_iff]
  constructor
  · rintro ⟨k, hk⟩
    obtain ⟨kv, hkv, rfl⟩ := SelMap.get_true_mem m.selected k hk
    obtain ⟨h0, h1⟩ := hb.2.2.2.1 kv hkv
    refine ⟨kv.1.toNat, by omega, ?_⟩
    rw [Int.toNat_of_nonneg h0]
    exact hk
  · rintro ⟨i, _, h⟩
    exact ⟨_, h⟩

/-- C6. In every state reached from the initial model of a non-empty list by messages
after which the program went on, the machine is browsing (no flag set), and the confirm
event (key "enter") sets the confirm flag and issues the quit command exactly when some
item of the list is selected; it then changes nothing else. With no item of the list
selected it returns the model unchanged and no command. -/
theorem confirm_iff_some_selected (items : List CleanableItem) (hne : items ≠ [])
    (m : model) (hr : Reachable items m) :
    m.items = items ∧ m.quit = false ∧ m.confirm = false ∧
    (((Update m (Msg.key "enter")).2 = Cmd.Quit ∧
        (Update m (Msg.key "enter")).1.confirm = true)
      ↔ ∃ i : Nat, i < items.length ∧ m.selected.get (i : Int) = true) ∧
    ((∃ i : Nat, i < items.length ∧ m.selected.get (i : Int) = true) →
      Update m (Msg.key "enter") = ({ m with confirm := true }, Cmd.Quit)) ∧
    ((¬ ∃ i : Nat, i < items.length ∧ m.selected.get (i : Int) = true) →
      Update m (Msg.key "enter") = (m, Cmd.nil)) := by
  have hb := hr.browsing hne
  have hiff := hb.anyTrue_listed
  refine ⟨hb.1, hb.2.2.2.2.1, hb.2.2.2.2.2, ?_, ?_, ?_⟩
  · rw [Update_enter]
    constructor
    · intro h
      by_cases ha : m.selected.anyTrue = true
      · exact hiff.mp ha
      · rw [if_neg ha] at h
        have h1 : Cmd.nil = Cmd.Quit := h.1
        exact absurd h1 (by decide)
    · intro h
      rw [if_pos (hiff.mpr h)]
      exact ⟨rfl, rfl⟩
  · intro h
    rw [Update_enter, if_pos (hiff.mpr h)]
  · intro h
    rw [Update_enter, if_neg (fun ha => h (hiff.mp ha))]

/-- C6, an instance: on the three items of the scenario, confirm does nothing in the
initial state, and after the toggle event (key " ") on the first item it confirms. -/
theorem confirm_iff_some_selected_witness :
    scenarioItems ≠ [] ∧
    Reachable scenarioItems (Update (initialModel scenarioItems) (Msg.key " ")).1 ∧
    (Update (Update (initialModel scenarioItems) (Msg.key " ")).1 (Msg.key "enter")).2
      = Cmd.Quit ∧
    (Update (initialModel scenarioItems) (Msg.key "enter")).2 = Cmd.nil := by
  have hne : scenarioItems ≠ [] := by decide
  have hr : Reachable scenarioItems (Update (initialModel scenarioItems) (Msg.key " ")).1 :=
    Reachable.step (Msg.key " ") Reachable.init (by decide)
  obtain ⟨_, _, _, h, _, _⟩ := confirm_iff_some_selected scenarioItems hne _ hr
  refine ⟨hne, hr, (h.mpr ⟨0, by decide, by decide⟩).1, by decide⟩

/-! ## The selection workflow: the result of `SelectItems` -/

theorem foldl_collect (sel : SelMap) (l : List CleanableItem) :
    ∀ (n : Nat) (acc : List CleanableItem),
      (l.enumFrom n).foldl
        (fun acc (p : Nat × CleanableItem) => if sel.get (p.1 : Int) then acc ++ [p.2] else acc)
        acc
      = acc ++ ((l.enumFrom n).filter (fun p => sel.get (p.1 : Int))).map (fun p => p.2) := by
  induction l with
  | nil => intro n acc; simp
  | cons it rest ih =>
    intro n acc
    rw [List.enumFrom_cons, List.foldl_cons, ih]
    by_cases h : sel.get (n : Int) = true
    · simp [List.filter_cons, h]
    · simp [List.filter_cons, h]

theorem collectSelected_eq (items : List CleanableItem) (sel : SelMap) :
    collectSelected items sel
      = (items.enum.filter (fun p => sel.get (p.1 : Int))).map (fun p => p.2) := by
  unfold collectSelected List.enum
  rw [foldl_collect]
  rfl

theorem collectSelected_sublist (items : List CleanableItem) (sel : SelMap) :
    (collectSelected items sel).Sublist items := by
  rw [collectSelected_eq]
  have h : ((items.enum.filter (fun p => sel.get (p.1 : Int))).map (fun p => p.2)).Sublist
      (items.enum.map (fun p => p.2)) := (List.filter_sublist _).map _
  have e : items.enum.map (fun p => p.2) = items := List.enum_map_snd items
  rw [e] at h
  exact h

theorem mem_enum_filter_iff (sel : SelMap) (l : List CleanableItem) (it : CleanableItem) :
    it ∈ (l.enum.filter (fun p => sel.get (p.1 : Int))).map (fun p => p.2)
      ↔ ∃ (i : Nat) (hi : i < l.length), sel.get (i : Int) = true ∧ l[i] = it := by
  simp only [List.mem_map, List.mem_filter]
  constructor
  · rintro ⟨⟨i, x⟩, ⟨hmem, hsel⟩, rfl⟩
    have := List.mem_enum_iff_getElem?.mp hmem
    obtain ⟨hi, hx⟩ := List.getElem?_eq_some_iff.mp this
    exact ⟨i, hi, hsel, hx⟩
  · rintro ⟨i, hi, hsel, rfl⟩
    refine ⟨(i, l[i]), ⟨?_, hsel⟩, rfl⟩
    exact List.mem_enum_iff_getElem?.mpr (List.getElem?_eq_getElem hi)

theorem length_enum_filter (sel : SelMap) (l : List CleanableItem) :
    ∀ n : Nat, ((l.enumFrom n).filter (fun p => sel.get (p.1 : Int))).length
      = ((List.range' n l.length).filter (fun (i : Nat) => sel.get (i : Int))).length := by
  induction l with
  | nil => intro n; rfl
  | cons it rest ih =>
    intro n
    simp only [List.enumFrom_cons, List.length_cons, List.range'_succ, List.filter_cons]
    by_cases h : sel.get (n : Int) = true
    · simp [h, ih (n + 1)]
    · simp [h, ih (n + 1)]

theorem Run_flags (msgs : List Msg) :
    ∀ (m fm : model), m.quit = false → m.confirm = false → Run m msgs = some fm →
      fm.items = m.items ∧
      ((fm.quit = true ∧ fm.confirm = false) ∨ (fm.quit = false ∧ fm.confirm = true)) := by
  induction msgs with
  | nil => intro m fm _ _ h; simp [Run] at h
  | cons msg rest ih =>
    intro m fm hq hc h
    obtain ⟨f1, f2, f3⟩ := Update_flags m msg
    unfold Run at h
    cases hu : Update m msg with
    | mk m1 c =>
      rw [hu] at h f1 f2 f3
      cases c with
      | Quit =>
        simp only [Option.some.injEq] at h
        subst h
        refine ⟨f1, ?_⟩
        rcases f3 rfl with ⟨a, b⟩ | ⟨a, b⟩
        · left; exact ⟨a, b.trans hc⟩
        · right; exact ⟨a.trans hq, b⟩
      | nil =>
        simp only at h
        obtain ⟨a, b⟩ := f2 rfl
        obtain ⟨g1, g2⟩ := ih m1 fm (a.trans hq) (b.trans hc) h
        exact ⟨g1.trans f1, g2⟩

theorem Run_append_of_none (pre msgs : List Msg) :
    ∀ m : model, Run m pre = none →
      Run m (pre ++ msgs) = Run (pre.foldl (fun m msg => (Update m msg).1) m) msgs := by
  induction pre with
  | nil => intro m _; rfl
  | cons msg rest ih =>
    intro m h
    unfold Run at h
    rw [List.cons_append, List.foldl_cons]
    conv_lhs => unfold Run
    cases hu : Update m msg with
    | mk m1 c =>
      rw [hu] at h
      cases c with
      | Quit => simp at h
      | nil =>
        simp only at h ⊢
        exact ih m1 h

theorem sizeLess_strictWeakOrder : StrictWeakOrder sizeLess := by
  unfold StrictWeakOrder sizeLess
  refine ⟨?_, ?_, ?_⟩
  · intro a
    simp
  · intro a b c h1 h2
    simp only [gt_iff_lt, decide_eq_true_eq] at h1 h2 ⊢
    omega
  · intro a b c h1 h2
    simp only [gt_iff_lt, decide_eq_false_iff_not, not_lt] at h1 h2 ⊢
    omega

/-- C7. When the workflow ends in Confirmed (the event loop returns a final model whose
confirm flag is set), `SelectItems` returns exactly the items of the sorted list whose
index is flagged in the final model, each once and in the order of the sorted list: the
result is a subsequence of the list sorted by size, largest first, its sizes are
non-increasing, an item is returned exactly when it stands at a flagged index, as many
items are returned as indices are flagged, and the sizes returned sum to the sizes at
the flagged indices. The order is derived from the comparison of the source,
`sizeLess`, and the contract of `sort.Slice`: `sortSlice` is any function that meets
`SortSliceContract`. -/
theorem SelectItems_confirmed (sortSlice : SortSlice) (hsort : SortSliceContract sortSlice)
    (items : List CleanableItem) (msgs : List Msg) (fm : model)
    (hrun : Run (initialModel (sortSlice sizeLess items)) msgs = some fm)
    (hconfirmed : fm.confirm = true) :
    fm.quit = false ∧ fm.items = sortSlice sizeLess items ∧
    (sortSlice sizeLess items).Perm items ∧
    (sortSlice sizeLess items).Pairwise (fun a b => b.Size ≤ a.Size) ∧
    SelectItems sortSlice items msgs
      = ((sortSlice sizeLess items).enum.filter (fun p => fm.selected.get (p.1 : Int))).map
          (fun p => p.2) ∧
    (SelectItems sortSlice items msgs).Sublist (sortSlice sizeLess items) ∧
    (SelectItems sortSlice items msgs).Pairwise (fun a b => b.Size ≤ a.Size) ∧
    (∀ it : CleanableItem, it ∈ SelectItems sortSlice items msgs
      ↔ ∃ (i : Nat) (hi : i < (sortSlice sizeLess items).length),
          fm.selected.get (i : Int) = true ∧ (sortSlice sizeLess items)[i] = it) ∧
    (SelectItems sortSlice items msgs).length
      = ((List.range (sortSlice sizeLess items).length).filter
          (fun (i : Nat) => fm.selected.get (i : Int))).length ∧
    sumSizes (SelectItems sortSlice items msgs)
      = (((sortSlice sizeLess items).enum.filter (fun p => fm.selected.get (p.1 : Int))).map
          (fun p => p.2.Size)).sum := by
  have hperm : ∀ l, (sortSlice sizeLess l).Perm l :=
    fun l => (hsort sizeLess sizeLess_strictWeakOrder l).1
  have hsorted : ∀ l, (sortSlice sizeLess l).Pairwise (fun a b => b.Size ≤ a.Size) := by
    intro l
    refine (hsort sizeLess sizeLess_strictWeakOrder l).2.imp ?_
    intro a b h
    unfold sizeLess at h
    simpa using h
  obtain ⟨hitems, hflags⟩ := Run_flags msgs _ fm rfl rfl hrun
  have hq : fm.quit = false := by
    rcases hflags with ⟨_, b⟩ | ⟨a, _⟩
    · rw [hconfirmed] at b; exact absurd b (by decide)
    · exact a
  have hsel : SelectItems sortSlice items msgs = collectSelected (sortSlice sizeLess items) fm.selected := by
    unfold SelectItems
    by_cases h0 : items.length = 0
    · have hnil : items = [] := List.length_eq_zero.mp h0
      have hs : sortSlice sizeLess items = [] := by
        rw [hnil]
        exact List.Perm.eq_nil (hperm [])
      rw [if_pos h0, hs]
      rfl
    · rw [if_neg h0]
      simp only [hrun, hq]
      rfl
  have heq := collectSelected_eq (sortSlice sizeLess items) fm.selected
  refine ⟨hq, hitems, hperm items, hsorted items, hsel.trans heq, ?_, ?_, ?_, ?_, ?_⟩
  · rw [hsel]; exact collectSelected_sublist _ _
  · rw [hsel]; exact (hsorted items).sublist (collectSelected_sublist _ _)
  · intro it
    rw [hsel, heq]
    exact mem_enum_filter_iff _ _ _
  · rw [hsel, heq, List.length_map]
    have := length_enum_filter fm.selected (sortSlice sizeLess items) 0
    rw [List.range_eq_range']
    exact this
  · rw [hsel, heq]
    unfold sumSizes
    rw [List.map_map]
    rfl

theorem insertionSortSlice_contract : SortSliceContract insertionSortSlice := by
  intro less hless l
  obtain ⟨hirr, htrans, hneg⟩ := hless
  haveI : IsTotal CleanableItem (fun a b => less b a = false) := by
    constructor
    intro a b
    cases hba : less b a with
    | false => exact Or.inl rfl
    | true =>
      right
      cases hab : less a b with
      | false => rfl
      | true =>
        have := htrans a b a hab hba
        rw [hirr a] at this
        exact absurd this (by decide)
  haveI : IsTrans CleanableItem (fun a b => less b a = false) :=
    ⟨fun a b c hab hbc => hneg c b a hbc hab⟩
  exact ⟨List.perm_insertionSort _ l,
    List.sorted_insertionSort (fun a b : CleanableItem => less b a = false) l⟩

/-- C7, the scenario of the specification: the findings 10 MB (safe), 500 MB (safe),
200 MB (caution), in this order, are sorted to 500 MB, 200 MB, 10 MB; select-all-safe
then confirm returns the 500 MB and the 10 MB item in this order, a batch of 510 MB,
and so it does when the list is handed over already sorted. -/
theorem SelectItems_confirmed_witness :
    SortSliceContract insertionSortSlice ∧
    insertionSortSlice sizeLess scenarioShuffled = scenarioItems ∧
    Run (initialModel (insertionSortSlice sizeLess scenarioShuffled))
        [Msg.key "s", Msg.key "enter"]
      = some ⟨scenarioItems, 0, selectSafe (initialModel scenarioItems), false, true⟩ ∧
    SelectItems insertionSortSlice scenarioShuffled [Msg.key "s", Msg.key "enter"]
      = [mkItem "a" 500000000 "safe", mkItem "c" 10000000 "safe"] ∧
    sumSizes (SelectItems insertionSortSlice scenarioShuffled [Msg.key "s", Msg.key "enter"])
      = 510000000 ∧
    SelectItems insertionSortSlice scenarioItems [Msg.key "s", Msg.key "enter"]
      = [mkItem "a" 500000000 "safe", mkItem "c" 10000000 "safe"] := by
  have hs : insertionSortSlice sizeLess scenarioShuffled = scenarioItems := by decide
  have hrun : Run (initialModel (insertionSortSlice sizeLess scenarioShuffled))
      [Msg.key "s", Msg.key "enter"]
      = some ⟨scenarioItems, 0, selectSafe (initialModel scenarioItems), false, true⟩ := by
    rw [hs]
    unfold Run
    rw [Update_s]
    simp only []
    unfold Run
    rw [Update_enter]
    rfl
  obtain ⟨_, _, _, _, h, _⟩ := SelectItems_confirmed insertionSortSlice
    insertionSortSlice_contract scenarioShuffled [Msg.key "s", Msg.key "enter"] _ hrun rfl
  refine ⟨insertionSortSlice_contract, hs, hrun, ?_, ?_, by decide⟩
  · rw [h, hs]; decide
  · rw [h, hs]; decide

/-- C8. In every state, whatever the cursor and the selection, the quit event (key "q"
or "ctrl+c") sets the quit flag, changes nothing else and issues the quit command; and
when the messages before it did not end the program, `SelectItems` returns the empty
result, whatever was selected by then and whatever messages would follow. -/
theorem quit_aborts :
    (∀ (m : model) (k : String), (k = "q" ∨ k = "ctrl+c") →
      Update m (Msg.key k) = ({ m with quit := true }, Cmd.Quit)) ∧
    (∀ (m : model) (k : String) (rest : List Msg), (k = "q" ∨ k = "ctrl+c") →
      Run m (Msg.key k :: rest) = some { m with quit := true }) ∧
    (∀ (sortSlice : SortSlice) (items : List CleanableItem)
      (pre rest : List Msg) (k : String), (k = "q" ∨ k = "ctrl+c") →
      Run (initialModel (sortSlice sizeLess items)) pre = none →
      SelectItems sortSlice items (pre ++ Msg.key k :: rest) = []) := by
  have hrun : ∀ (m : model) (k : String) (rest : List Msg), (k = "q" ∨ k = "ctrl+c") →
      Run m (Msg.key k :: rest) = some { m with quit := true } := by
    intro m k rest hk
    unfold Run
    rw [Update_quit m k hk.symm]
  refine ⟨fun m k hk => Update_quit m k hk.symm, hrun, ?_⟩
  intro sortSlice items pre rest k hk hpre
  unfold SelectItems
  split
  · rfl
  · simp only [Run_append_of_none pre _ _ hpre, hrun _ k rest hk]
    rfl

/-- C8, an instance: on the three items of the scenario, select-all-safe followed by
quit returns nothing, although two items were selected when quit arrived. -/
theorem quit_aborts_witness :
    Run (initialModel (insertionSortSlice sizeLess scenarioItems)) [Msg.key "s"] = none ∧
    ((Update (initialModel (insertionSortSlice sizeLess scenarioItems)) (Msg.key "s")).1.selected.get 0
      = true) ∧
    SelectItems insertionSortSlice scenarioItems [Msg.key "s", Msg.key "q"] = [] := by
  have hpre : Run (initialModel (insertionSortSlice sizeLess scenarioItems)) [Msg.key "s"] = none := by
    unfold Run
    rw [Update_s]
    rfl
  refine ⟨hpre, by decide, ?_⟩
  exact quit_aborts.2.2 insertionSortSlice scenarioItems [Msg.key "s"] [] "q" (Or.inl rfl) hpre

/-! ## The dry run of the clean command -/

theorem toUint64_wrapInt64 (x : Int) : toUint64 (wrapInt64 x) = (x % 2 ^ 64).toNat := by
  unfold toUint64 wrapInt64
  congr 1
  omega

theorem foldl_dryRunStep (items : List CleanableItem) :
    ∀ (out : List Output) (t0 t : Int), t0 = wrapInt64 t →
      items.foldl dryRunStep (out, t0)
        = (out ++ items.flatMap dryRunLines, wrapInt64 (t + sumSizes items)) := by
  induction items with
  | nil => intro out t0 t h; simp [sumSizes, h]
  | cons it rest ih =>
    intro out t0 t h
    rw [List.foldl_cons]
    have e : dryRunStep (out, t0) it = (out ++ dryRunLines it, wrapInt64 (t0 + it.Size)) := rfl
    rw [e, ih _ _ (t + it.Size) (by rw [h, wrapInt64_add_wrap])]
    simp [sumSizes, add_assoc]

theorem DisplayDryRun_eq (items : List CleanableItem) :
    DisplayDryRun items
      = [Output.text "🔍 Dry Run - Would clean:", Output.text ""]
        ++ items.flatMap dryRunLines
        ++ [Output.text "", Output.text ruleLine,
            Output.wouldFree ((sumSizes items % 2 ^ 64).toNat)] := by
  unfold DisplayDryRun
  rw [foldl_dryRunStep items _ 0 0 wrapInt64_zero.symm]
  simp [toUint64_wrapInt64]

/-- C2 (amended). The clean command in dry-run mode performs no deletion: whatever the
flags, the messages and the machine, the world after the command is the world before
it, and the run does not depend on `os.RemoveAll` at all (`CleanItems` is not reached).
When the confirmed list is not empty, what is printed is the report of `DisplayDryRun`
on it: for each item, in input order, its description with its size and its path, then
a total that is the sum of the sizes of the items modulo 2^64, which is the exact sum
whenever that sum is non-negative and below 2^64. -/
theorem dryRun_no_deletion {σ : Type} (host : Host σ) (env : Env)
    (sortSlice : SortSlice)
    (cleanAll : Bool) (msgs : List Msg) (w : σ) :
    (cleanCmdRun host env sortSlice cleanAll true msgs w).1 = w ∧
    (∀ removeAll2 : σ → Path → σ × Bool,
      cleanCmdRun { fsOf := host.fsOf, removeAll := removeAll2 } env sortSlice cleanAll true
        msgs w
        = cleanCmdRun host env sortSlice cleanAll true msgs w) ∧
    (ScanAll env (host.fsOf w) ≠ [] →
      (if cleanAll then ScanAll env (host.fsOf w)
        else SelectItems sortSlice (ScanAll env (host.fsOf w)) msgs) ≠ [] →
      (cleanCmdRun host env sortSlice cleanAll true msgs w).2
        = DisplayDryRun (if cleanAll then ScanAll env (host.fsOf w)
            else SelectItems sortSlice (ScanAll env (host.fsOf w)) msgs)) ∧
    (∀ items : List CleanableItem,
      DisplayDryRun items
        = [Output.text "🔍 Dry Run - Would clean:", Output.text ""]
          ++ items.flatMap dryRunLines
          ++ [Output.text "", Output.text ruleLine,
              Output.wouldFree ((sumSizes items % 2 ^ 64).toNat)] ∧
      (0 ≤ sumSizes items → sumSizes items < 2 ^ 64 →
        (((sumSizes items % 2 ^ 64).toNat : Nat) : Int) = sumSizes items)) := by
  refine ⟨?_, ?_, ?_, ?_⟩
  · unfold cleanCmdRun
    simp only []
    split_ifs <;> rfl
  · intro removeAll2
    unfold cleanCmdRun
    simp only []
    split_ifs <;> rfl
  · intro h1 h2
    unfold cleanCmdRun
    simp only []
    rw [if_neg (fun h => h1 (List.length_eq_zero.mp h)),
      if_neg (fun h => h2 (List.length_eq_zero.mp h))]
    rfl
  · intro items
    refine ⟨DisplayDryRun_eq items, ?_⟩
    intro h0 h1
    omega

theorem ScanAll_androidFS_400MB :
    ScanAll linuxEnv (androidFS 400000000) = androidFindings 400000000 := by
  decide

theorem ScanAll_androidFS_huge :
    ScanAll linuxEnv (androidFS (2 ^ 63 - 1)) = androidFindings (2 ^ 63 - 1) := by
  decide

/-- C2, the scenario of the specification: the dry run of `clean --all` on a machine
with three findings of 400 MB each (1.2 GB in all) prints the three descriptions and
paths and the total 1.2 GB, and removes nothing. -/
theorem dryRun_no_deletion_witness :
    cleanCmdRun (logHost (androidFS 400000000)) linuxEnv insertionSortSlice true true [] []
      = ([], [Output.text "🔍 Dry Run - Would clean:", Output.text "",
              Output.dryRunItem "Gradle caches" 400000000,
              Output.dryRunPath ["/", "home", "u", ".gradle", "caches"],
              Output.dryRunItem "Gradle distributions" 400000000,
              Output.dryRunPath ["/", "home", "u", ".gradle", "wrapper", "dists"],
              Output.dryRunItem "Android SDK cache" 400000000,
              Output.dryRunPath ["/", "home", "u", ".android", "cache"],
              Output.text "", Output.text ruleLine, Output.wouldFree 1200000000]) := by
  obtain ⟨h1, _, h3, _⟩ := dryRun_no_deletion (logHost (androidFS 400000000)) linuxEnv
    insertionSortSlice true [] ([] : List Path)
  have hs : ScanAll linuxEnv ((logHost (androidFS 400000000)).fsOf []) = androidFindings 400000000 :=
    ScanAll_androidFS_400MB
  rw [hs] at h3
  have h4 := h3 (by decide) (by decide)
  refine Prod.ext h1 ?_
  rw [h4]
  decide

/-- C2, as stated, fails on overflow: in the dry run of `clean --all` on a machine with
three findings of 2^63 - 1 bytes each, the total printed is 2^63 - 3, not the sum
3 * (2^63 - 1) of the sizes. Nothing is removed. -/
theorem dryRun_total_overflow :
    ScanAll linuxEnv (androidFS (2 ^ 63 - 1)) = androidFindings (2 ^ 63 - 1) ∧
    sumSizes (androidFindings (2 ^ 63 - 1)) = 3 * (2 ^ 63 - 1) ∧
    (cleanCmdRun (logHost (androidFS (2 ^ 63 - 1))) linuxEnv insertionSortSlice true true [] []).1
      = [] ∧
    (cleanCmdRun (logHost (androidFS (2 ^ 63 - 1))) linuxEnv insertionSortSlice true true [] []).2.getLast?
      = some (Output.wouldFree (2 ^ 63 - 3)) := by
  have hs : ScanAll linuxEnv ((logHost (androidFS (2 ^ 63 - 1))).fsOf [])
      = androidFindings (2 ^ 63 - 1) := ScanAll_androidFS_huge
  refine ⟨ScanAll_androidFS_huge, by decide, ?_, ?_⟩
  · unfold cleanCmdRun
    simp only [hs]
    decide
  · unfold cleanCmdRun
    simp only [hs]
    decide

/-! ## The structural walk of `ScanFlutter` -/

theorem front_dart_tool (name : String) (h : name = ".dart_tool") : name.front = '.' := by
  subst h
  decide

theorem scanFlutterFn_err (fs : FS) (results : List CleanableItem) (path : Path)
    (info : Option FileInfo) :
    scanFlutterFn fs results path info true = (results, WalkErr.nil) := by
  simp [scanFlutterFn]

theorem scanFlutterFn_file (fs : FS) (results : List CleanableItem) (path : Path)
    (name : String) (sz : Int) :
    scanFlutterFn fs results path (some ⟨name, false, sz⟩) false = (results, WalkErr.nil) := by
  simp [scanFlutterFn]

theorem scanFlutterFn_dir (fs : FS) (results : List CleanableItem) (path : Path)
    (name : String) (sz : Int) :
    scanFlutterFn fs results path (some ⟨name, true, sz⟩) false
      = if pruned name then (results, WalkErr.SkipDir)
        else (results ++
          (if name = "build" ∧ pathExists fs (Dir path ++ ["pubspec.yaml"]) = true
              ∧ 100 * 1024 * 1024 < getDirSize fs path
            then [{ Path := path, Size := getDirSize fs path, Category := "Flutter",
                    Description := "Build directory: " ++ Base (Dir path),
                    SafeLevel := "safe" }]
            else []), WalkErr.nil) := by
  unfold scanFlutterFn pruned
  by_cases hp : (name.front = '.' ∨ name = "node_modules")
  · simp [hp]
  · have hd : name ≠ ".dart_tool" := fun h => hp (Or.inl (front_dart_tool name h))
    have h1 : ¬ name.front = '.' := fun h => hp (Or.inl h)
    have h2 : ¬ name = "node_modules" := fun h => hp (Or.inr h)
    simp only [h1, h2, hd, Bool.true_and, decide_False, Bool.or_self, Bool.false_eq_true,
      if_false, Bool.and_false, Bool.and_true, decide_eq_true_eq]
    by_cases hb : name = "build"
    · by_cases hm : pathExists fs (Dir path ++ ["pubspec.yaml"]) = true
      · simp only [hb, hm, if_true, true_and]
        split <;> simp
      · simp [hb, hm]
    · simp [hb]

mutual
theorem walk_scanFlutterFn (fs : FS) :
    ∀ (node : Node) (path : Path) (acc : List CleanableItem),
      (walk (scanFlutterFn fs) path node acc).1 = acc ++ buildsUnder fs path node ∧
      walkStops node (walk (scanFlutterFn fs) path node acc).2 = false ∧
      ((walk (scanFlutterFn fs) path node acc).2 = WalkErr.nil ∨
       (walk (scanFlutterFn fs) path node acc).2 = WalkErr.SkipDir)
  | .file k sz, path, acc => by
    simp [walk, scanFlutterFn_file, buildsUnder, walkStops]
  | .unreadableDir sz, path, acc => by
    simp [walk, scanFlutterFn_err, buildsUnder, walkStops]
  | .bad, path, acc => by
    simp [walk, scanFlutterFn_err, buildsUnder, walkStops]
  | .dir sz es, path, acc => by
    unfold walk
    simp only [scanFlutterFn_dir]
    by_cases hp : pruned (Base path) = true
    · simp [hp, buildsUnder, walkStops]
    · obtain ⟨h1, h2⟩ := walkEntries_scanFlutterFn fs es path
        (acc ++ (if Base path = "build" ∧ pathExists fs (Dir path ++ ["pubspec.yaml"]) = true
              ∧ 100 * 1024 * 1024 < getDirSize fs path
            then [{ Path := path, Size := getDirSize fs path, Category := "Flutter",
                    Description := "Build directory: " ++ Base (Dir path),
                    SafeLevel := "safe" }]
            else []))
      simp only [hp, if_false, Bool.false_eq_true, if_true, h1, h2, buildsUnder]
      simp [walkStops, buildFinding, List.append_assoc]
theorem walkEntries_scanFlutterFn (fs : FS) :
    ∀ (es : Entries) (path : Path) (acc : List CleanableItem),
      (walkEntries (scanFlutterFn fs) path es acc).1 = acc ++ buildsIn fs path es ∧
      (walkEntries (scanFlutterFn fs) path es acc).2 = WalkErr.nil
  | .nil, path, acc => by
    simp [walkEntries, buildsIn]
  | .cons name node rest, path, acc => by
    obtain ⟨h1, h2, _⟩ := walk_scanFlutterFn fs node (path ++ [name]) acc
    obtain ⟨g1, g2⟩ := walkEntries_scanFlutterFn fs rest path
      (walk (scanFlutterFn fs) (path ++ [name]) node acc).1
    unfold walkEntries
    simp only [h2, Bool.false_eq_true, if_false]
    rw [g1, g2, h1]
    simp [buildsIn, List.append_assoc]
end

theorem Visits.of_entry {root : Path} {sz : Int} {es : Entries} {name : String} {n : Node}
    (hp : pruned (Base root) = false) (hmem : (name, n) ∈ es.toList)
    {q : Path} {n2 : Node} (h : Visits (root ++ [name]) n q n2) :
    Visits root (Node.dir sz es) q n2 := by
  induction h with
  | start => exact Visits.entry Visits.start hp hmem
  | entry _ hp2 hm2 ih => exact Visits.entry ih hp2 hm2

theorem mem_buildsIn_of_mem (fs : FS) (path : Path) (it : CleanableItem) :
    ∀ (es : Entries) (name : String) (n : Node), (name, n) ∈ es.toList →
      it ∈ buildsUnder fs (path ++ [name]) n → it ∈ buildsIn fs path es
  | .nil, name, n, h, _ => by simp [Entries.toList] at h
  | .cons name0 n0 rest, name, n, h, hit => by
    simp only [Entries.toList, List.mem_cons, Prod.mk.injEq] at h
    simp only [buildsIn, List.mem_append]
    rcases h with ⟨h1, h2⟩ | h
    · subst h1; subst h2
      exact Or.inl hit
    · exact Or.inr (mem_buildsIn_of_mem fs path it rest name n h hit)

theorem mem_buildsIn (fs : FS) (path : Path) (it : CleanableItem) :
    ∀ (es : Entries), it ∈ buildsIn fs path es →
      ∃ (name : String) (n : Node), (name, n) ∈ es.toList ∧
        it ∈ buildsUnder fs (path ++ [name]) n
  | .nil, h => by simp [buildsIn] at h
  | .cons name0 n0 rest, h => by
    simp only [buildsIn, List.mem_append] at h
    rcases h with h | h
    · exact ⟨name0, n0, by simp [Entries.toList], h⟩
    · obtain ⟨name, n, hm, hit⟩ := mem_buildsIn fs path it rest h
      exact ⟨name, n, by simp [Entries.toList, hm], hit⟩

theorem buildsUnder_subset_of_visits (fs : FS) {root : Path} {node : Node} {q : Path}
    {n2 : Node} (h : Visits root node q n2) :
    ∀ it, it ∈ buildsUnder fs q n2 → it ∈ buildsUnder fs root node := by
  induction h with
  | start => intro it hit; exact hit
  | @entry p sz es name n _ hp hm ih =>
    intro it hit
    apply ih
    simp only [buildsUnder, hp, Bool.false_eq_true, if_false, List.mem_append]
    exact Or.inr (mem_buildsIn_of_mem fs p it es name n hm hit)

mutual
theorem mem_buildsUnder (fs : FS) (it : CleanableItem) :
    ∀ (node : Node) (path : Path), it ∈ buildsUnder fs path node →
      ∃ (q : Path) (sz : Int) (es : Entries), Visits path node q (Node.dir sz es) ∧
        Base q = "build" ∧ pathExists fs (Dir q ++ ["pubspec.yaml"]) = true ∧
        100 * 1024 * 1024 < getDirSize fs q ∧ it = buildFinding fs q
  | .file _ _, path, h => by simp [buildsUnder] at h
  | .unreadableDir _, path, h => by simp [buildsUnder] at h
  | .bad, path, h => by simp [buildsUnder] at h
  | .dir sz es, path, h => by
    by_cases hp : pruned (Base path) = true
    · simp [buildsUnder, hp] at h
    · have hp2 : pruned (Base path) = false := by simpa using hp
      simp only [buildsUnder, hp2, Bool.false_eq_true, if_false, List.mem_append] at h
      rcases h with h | h
      · by_cases hc : Base path = "build" ∧ pathExists fs (Dir path ++ ["pubspec.yaml"]) = true
            ∧ 100 * 1024 * 1024 < getDirSize fs path
        · rw [if_pos hc] at h
          exact ⟨path, sz, es, Visits.start, hc.1, hc.2.1, hc.2.2, List.mem_singleton.mp h⟩
        · rw [if_neg hc] at h
          exact absurd h (List.not_mem_nil _)
      · obtain ⟨q, sz2, es2, hv, hrest⟩ := mem_buildsIn_visits fs it es path h
        obtain ⟨name, n, hm, hv2⟩ := hv
        exact ⟨q, sz2, es2, Visits.of_entry hp2 hm hv2, hrest⟩
theorem mem_buildsIn_visits (fs : FS) (it : CleanableItem) :
    ∀ (es : Entries) (path : Path), it ∈ buildsIn fs path es →
      ∃ (q : Path) (sz : Int) (es2 : Entries),
        (∃ (name : String) (n : Node), (name, n) ∈ es.toList ∧
          Visits (path ++ [name]) n q (Node.dir sz es2)) ∧
        Base q = "build" ∧ pathExists fs (Dir q ++ ["pubspec.yaml"]) = true ∧
        100 * 1024 * 1024 < getDirSize fs q ∧ it = buildFinding fs q
  | .nil, path, h => by simp [buildsIn] at h
  | .cons name0 n0 rest, path, h => by
    simp only [buildsIn, List.mem_append] at h
    rcases h with h | h
    · obtain ⟨q, sz, es2, hv, hrest⟩ := mem_buildsUnder fs it n0 (path ++ [name0]) h
      exact ⟨q, sz, es2, ⟨name0, n0, by simp [Entries.toList], hv⟩, hrest⟩
    · obtain ⟨q, sz, es2, ⟨name, n, hm, hv⟩, hrest⟩ := mem_buildsIn_visits fs it rest path h
      exact ⟨q, sz, es2, ⟨name, n, by simp [Entries.toList, hm], hv⟩, hrest⟩
end

theorem scanFlutterWalk_eq (env : Env) (fs : FS) (basePath : Path) :
    scanFlutterWalk env fs basePath
      = match fs.resolve (flutterBase env basePath) with
        | some node => buildsUnder fs (flutterBase env basePath) node
        | none => [] := by
  unfold scanFlutterWalk Walk
  cases h : fs.resolve (flutterBase env basePath) with
  | none => simp [scanFlutterFn_err]
  | some node =>
    have := (walk_scanFlutterFn fs node (flutterBase env basePath) []).1
    simpa using this

theorem mem_scanFlutterWalk (env : Env) (fs : FS) (basePath : Path) :
    ∀ it ∈ scanFlutterWalk env fs basePath,
      ∃ (node : Node) (p : Path) (sz : Int) (es : Entries),
        fs.resolve (flutterBase env basePath) = some node ∧
        Visits (flutterBase env basePath) node p (Node.dir sz es) ∧ Base p = "build" ∧
        pathExists fs (Dir p ++ ["pubspec.yaml"]) = true ∧
        100 * 1024 * 1024 < getDirSize fs p ∧ it = buildFinding fs p := by
  intro it hit
  rw [scanFlutterWalk_eq] at hit
  cases h : fs.resolve (flutterBase env basePath) with
  | none => rw [h] at hit; exact absurd hit (List.not_mem_nil _)
  | some node =>
    rw [h] at hit
    obtain ⟨q, sz, es, hv, hrest⟩ := mem_buildsUnder fs it node _ hit
    exact ⟨node, q, sz, es, rfl, hv, hrest⟩

theorem ScanFlutter_eq (env : Env) (fs : FS) (basePath : Path) :
    ScanFlutter env fs basePath
      = scanFlutterWalk env fs basePath
        ++ (if pathExists fs (getHomeDir env ++ [".pub-cache"]) = true
              ∧ 100 * 1024 * 1024 < getDirSize fs (getHomeDir env ++ [".pub-cache"])
            then [pubCacheFinding env fs] else []) := by
  unfold ScanFlutter pubCacheFinding
  simp only []
  by_cases h1 : pathExists fs (getHomeDir env ++ [".pub-cache"]) = true
  · simp only [h1, if_true, true_and]
    split <;> simp
  · simp [h1]

theorem buildFinding_mem_walk (env : Env) (fs : FS) (basePath : Path) (node : Node)
    (hnode : fs.resolve (flutterBase env basePath) = some node)
    (p : Path) (sz : Int) (es : Entries)
    (hv : Visits (flutterBase env basePath) node p (Node.dir sz es)) (hb : Base p = "build") :
    buildFinding fs p ∈ scanFlutterWalk env fs basePath
      ↔ (pathExists fs (Dir p ++ ["pubspec.yaml"]) = true
          ∧ 100 * 1024 * 1024 < getDirSize fs p) := by
  constructor
  · intro hmem
    obtain ⟨_, q, _, _, _, _, _, hm, hs, heq⟩ := mem_scanFlutterWalk env fs basePath _ hmem
    have hpq : p = q := congrArg CleanableItem.Path heq
    rw [hpq]
    exact ⟨hm, hs⟩
  · rintro ⟨hm, hs⟩
    rw [scanFlutterWalk_eq, hnode]
    apply buildsUnder_subset_of_visits fs hv
    have hp : pruned (Base p) = false := by rw [hb]; decide
    simp only [buildsUnder, hp, Bool.false_eq_true, if_false, List.mem_append]
    left
    rw [if_pos ⟨hb, hm, hs⟩]
    exact List.mem_singleton.mpr rfl

/-- C10. The structural walk of `ScanFlutter` yields the finding of a directory named
`build` that it comes to (no directory above it, from the base path down, is hidden,
`node_modules` or unreadable) exactly when the parent of that directory holds
`pubspec.yaml` and the size of the directory is above 100 MiB; and it yields nothing
else: every finding of the walk is the finding of such a directory, so a build
directory whose parent lacks the marker, or one below a pruned directory, yields none.
`ScanFlutter` returns the findings of the walk, followed by the pub cache finding if
the pub cache exists with a size above 100 MiB. -/
theorem flutter_build_findings (env : Env) (fs : FS) (basePath : Path) :
    (∀ (node : Node), fs.resolve (flutterBase env basePath) = some node →
      ∀ (p : Path) (sz : Int) (es : Entries),
        Visits (flutterBase env basePath) node p (Node.dir sz es) → Base p = "build" →
        (buildFinding fs p ∈ scanFlutterWalk env fs basePath
          ↔ (pathExists fs (Dir p ++ ["pubspec.yaml"]) = true
              ∧ 100 * 1024 * 1024 < getDirSize fs p))) ∧
    (∀ it ∈ scanFlutterWalk env fs basePath,
      ∃ (node : Node) (p : Path) (sz : Int) (es : Entries),
        fs.resolve (flutterBase env basePath) = some node ∧
        Visits (flutterBase env basePath) node p (Node.dir sz es) ∧ Base p = "build" ∧
        pathExists fs (Dir p ++ ["pubspec.yaml"]) = true ∧
        100 * 1024 * 1024 < getDirSize fs p ∧ it = buildFinding fs p) ∧
    (∀ it ∈ scanFlutterWalk env fs basePath,
      Base it.Path = "build" ∧ pathExists fs (Dir it.Path ++ ["pubspec.yaml"]) = true ∧
      it.Size = getDirSize fs it.Path ∧ 100 * 1024 * 1024 < it.Size) ∧
    ScanFlutter env fs basePath
      = scanFlutterWalk env fs basePath
        ++ (if pathExists fs (getHomeDir env ++ [".pub-cache"]) = true
              ∧ 100 * 1024 * 1024 < getDirSize fs (getHomeDir env ++ [".pub-cache"])
            then [pubCacheFinding env fs] else []) := by
  have hall := mem_scanFlutterWalk env fs basePath
  refine ⟨?_, hall, ?_, ?_⟩
  · intro node hnode p sz es hv hb
    exact buildFinding_mem_walk env fs basePath node hnode p sz es hv hb
  · intro it hit
    obtain ⟨_, q, _, _, _, _, hb, hm, hs, heq⟩ := hall it hit
    subst heq
    exact ⟨hb, hm, rfl, hs⟩
  · exact ScanFlutter_eq env fs basePath

/-- C10, the scenario of the specification: with `projectA/build` (150 MB, and
`projectA/pubspec.yaml` present) and `projectB/build` (150 MB, no marker) under the base
path, `ScanFlutter` returns exactly one finding, the build directory of `projectA`. -/
theorem flutter_build_findings_witness :
    ScanFlutter linuxEnv flutterFS []
      = [{ Path := ["/", "home", "u", "Documents", "projectA", "build"], Size := 150000000,
           Category := "Flutter", Description := "Build directory: projectA",
           SafeLevel := "safe" }] ∧
    pathExists flutterFS ["/", "home", "u", "Documents", "projectB", "pubspec.yaml"] = false ∧
    getDirSize flutterFS ["/", "home", "u", "Documents", "projectB", "build"] = 150000000 := by
  obtain ⟨_, _, _, h⟩ := flutter_build_findings linuxEnv flutterFS []
  refine ⟨?_, by decide, by decide⟩
  rw [h]
  decide

/-! ## The thresholds of the scans -/

theorem scanPaths_eq (fs : FS) (threshold : Int) (paths : List PathSpec) :
    ∀ results : List CleanableItem,
      scanPaths fs threshold paths results
        = results ++ (paths.filter (fun p => pathExists fs p.path
            && decide (threshold < getDirSize fs p.path))).map (findingOf fs) := by
  unfold scanPaths
  induction paths with
  | nil => intro results; simp
  | cons p rest ih =>
    intro results
    rw [List.foldl_cons, ih]
    by_cases h1 : pathExists fs p.path = true
    · by_cases h2 : threshold < getDirSize fs p.path
      · simp [List.filter_cons, h1, h2, findingOf, gt_iff_lt]
      · simp [List.filter_cons, h1, h2, gt_iff_lt]
    · simp [List.filter_cons, h1]

theorem mem_scanPaths (fs : FS) (threshold : Int) (paths : List PathSpec) (it : CleanableItem) :
    it ∈ scanPaths fs threshold paths []
      ↔ ∃ p ∈ paths, pathExists fs p.path = true ∧ threshold < getDirSize fs p.path
          ∧ it = findingOf fs p := by
  rw [scanPaths_eq]
  simp only [List.nil_append, List.mem_map, List.mem_filter, Bool.and_eq_true,
    decide_eq_true_eq]
  constructor
  · rintro ⟨p, ⟨hp, h1, h2⟩, rfl⟩
    exact ⟨p, hp, h1, h2, rfl⟩
  · rintro ⟨p, hp, h1, h2, rfl⟩
    exact ⟨p, ⟨hp, h1, h2⟩, rfl⟩

theorem findingOf_mem_scanPaths (fs : FS) (threshold : Int) (paths : List PathSpec)
    (p : PathSpec) (hp : p ∈ paths) :
    findingOf fs p ∈ scanPaths fs threshold paths []
      ↔ (pathExists fs p.path = true ∧ threshold < getDirSize fs p.path) := by
  rw [mem_scanPaths]
  constructor
  · rintro ⟨q, _, h1, h2, heq⟩
    have hpq : p.path = q.path := congrArg CleanableItem.Path heq
    rw [hpq]
    exact ⟨h1, h2⟩
  · rintro ⟨h1, h2⟩
    exact ⟨p, hp, h1, h2, rfl⟩

theorem scanPaths_bound (fs : FS) (threshold : Int) (paths : List PathSpec) :
    ∀ it ∈ scanPaths fs threshold paths [],
      threshold < it.Size ∧ it.Size = getDirSize fs it.Path ∧ pathExists fs it.Path = true := by
  intro it hit
  obtain ⟨p, _, h1, h2, rfl⟩ := (mem_scanPaths fs threshold paths it).mp hit
  exact ⟨h2, rfl, h1⟩

theorem scanAvdEntries_eq (fs : FS) (avdPath : Path) (entries : List DirEntry) :
    ∀ results : List CleanableItem,
      scanAvdEntries fs avdPath entries results
        = results ++ (entries.filter (fun e => e.IsDir && decide (Ext e.Name = ".avd")
            && decide (1024 * 1024 * 1024 < getDirSize fs (avdPath ++ [e.Name])))).map
              (avdFinding fs avdPath) := by
  unfold scanAvdEntries
  induction entries with
  | nil => intro results; simp
  | cons e rest ih =>
    intro results
    rw [List.foldl_cons, ih]
    by_cases h1 : (e.IsDir && decide (Ext e.Name = ".avd")) = true
    · by_cases h2 : 1024 * 1024 * 1024 < getDirSize fs (avdPath ++ [e.Name])
      · simp only [h1, if_true, gt_iff_lt, h2, List.filter_cons, decide_True, Bool.and_self,
          List.map_cons, List.append_assoc, List.singleton_append]
        rfl
      · simp only [h1, if_true, gt_iff_lt, h2, List.filter_cons, decide_False, Bool.and_false,
          if_false, Bool.false_eq_true]
    · simp only [h1, if_false, List.filter_cons, Bool.false_and, Bool.false_eq_true]

theorem ScanAndroid_eq (env : Env) (fs : FS) :
    ScanAndroid env fs
      = scanPaths fs (100 * 1024 * 1024) (androidPaths env) []
        ++ ((avdEntries env fs).filter (fun e => e.IsDir && decide (Ext e.Name = ".avd")
            && decide (1024 * 1024 * 1024
                < getDirSize fs (getHomeDir env ++ [".android", "avd"] ++ [e.Name])))).map
              (avdFinding fs (getHomeDir env ++ [".android", "avd"])) := by
  unfold ScanAndroid avdEntries
  simp only []
  by_cases h1 : pathExists fs (getHomeDir env ++ [".android", "avd"]) = true
  · simp only [h1, if_true]
    cases h2 : ReadDir fs (getHomeDir env ++ [".android", "avd"]) with
    | none => simp
    | some entries => simp only [scanAvdEntries_eq]
  · simp [h1]

theorem androidPaths_safeLevel (env : Env) :
    ∀ p ∈ androidPaths env, p.safeLevel ≠ "warning" := by
  intro p hp
  simp only [androidPaths, List.mem_cons, List.mem_singleton, List.not_mem_nil, or_false] at hp
  rcases hp with h | h | h <;> subst h <;> simp

theorem ScanFlutter_bound (env : Env) (fs : FS) (basePath : Path) :
    ∀ it ∈ ScanFlutter env fs basePath,
      100 * 1024 * 1024 < it.Size ∧ it.Size = getDirSize fs it.Path := by
  intro it hit
  rw [ScanFlutter_eq, List.mem_append] at hit
  rcases hit with h | h
  · obtain ⟨_, q, _, _, _, _, _, _, hs, heq⟩ := mem_scanFlutterWalk env fs basePath it h
    subst heq
    exact ⟨hs, rfl⟩
  · split at h
    · rename_i hc
      rw [List.mem_singleton] at h
      subst h
      exact ⟨hc.2, rfl⟩
    · exact absurd h (List.not_mem_nil _)

theorem mem_avd_part (env : Env) (fs : FS) (it : CleanableItem) :
    it ∈ ((avdEntries env fs).filter (fun e => e.IsDir && decide (Ext e.Name = ".avd")
            && decide (1024 * 1024 * 1024
                < getDirSize fs (getHomeDir env ++ [".android", "avd"] ++ [e.Name])))).map
              (avdFinding fs (getHomeDir env ++ [".android", "avd"]))
      ↔ ∃ e ∈ avdEntries env fs, e.IsDir = true ∧ Ext e.Name = ".avd" ∧
          1024 * 1024 * 1024 < getDirSize fs (getHomeDir env ++ [".android", "avd"] ++ [e.Name])
          ∧ it = avdFinding fs (getHomeDir env ++ [".android", "avd"]) e := by
  simp only [List.mem_map, List.mem_filter, Bool.and_eq_true, decide_eq_true_eq]
  constructor
  · rintro ⟨e, ⟨he, ⟨h1, h2⟩, h3⟩, rfl⟩
    exact ⟨e, he, h1, h2, h3, rfl⟩
  · rintro ⟨e, he, h1, h2, h3, rfl⟩
    exact ⟨e, ⟨he, ⟨h1, h2⟩, h3⟩, rfl⟩

theorem ScanAndroid_bound (env : Env) (fs : FS) :
    ∀ it ∈ ScanAndroid env fs,
      100 * 1024 * 1024 < it.Size ∧ (it.SafeLevel = "warning" → 1024 * 1024 * 1024 < it.Size)
        ∧ it.Size = getDirSize fs it.Path := by
  intro it hit
  rw [ScanAndroid_eq, List.mem_append] at hit
  rcases hit with h | h
  · obtain ⟨p, hp, _, h2, rfl⟩ := (mem_scanPaths fs _ _ it).mp h
    refine ⟨h2, ?_, rfl⟩
    intro hw
    exact absurd hw (androidPaths_safeLevel env p hp)
  · obtain ⟨e, _, _, _, h3, rfl⟩ := (mem_avd_part env fs it).mp h
    refine ⟨?_, fun _ => h3, rfl⟩
    have : (100 * 1024 * 1024 : Int) < 1024 * 1024 * 1024 := by norm_num
    exact lt_trans this h3

/-- C9. Every finding a scan returns has a size strictly above the threshold of the rule
that produced it: above 0 for `ScanAntigravity`; above 100 MiB for `ScanFlutter` (build
directories and the pub cache), `ScanXcode` and `ScanAndroid`, and above 1 GiB for the
AVD findings of `ScanAndroid` (safety level "warning"); above 50 MiB for `ScanVSCode`;
so every finding of `ScanAll` has a positive size, the size of its path at scan time.
At the boundary, the finding of a candidate is returned exactly when the candidate
exists and its size is above the threshold: a candidate of exactly the threshold is
left out, one of a byte more is returned. This is stated for the fixed candidates of
each table, for the entries of the AVD directory, for the pub cache, and for the build
directories the walk of `ScanFlutter` comes to (there with the marker test in the place
of existence). -/
theorem findings_exceed_threshold (env : Env) (fs : FS) (basePath : Path) :
    (∀ it ∈ ScanAntigravity env fs, 0 < it.Size) ∧
    (∀ it ∈ ScanFlutter env fs basePath, 100 * 1024 * 1024 < it.Size) ∧
    (∀ it ∈ ScanXcode env fs, 100 * 1024 * 1024 < it.Size) ∧
    (∀ it ∈ ScanAndroid env fs,
      100 * 1024 * 1024 < it.Size ∧
      (it.SafeLevel = "warning" → 1024 * 1024 * 1024 < it.Size)) ∧
    (∀ it ∈ ScanVSCode env fs, 50 * 1024 * 1024 < it.Size) ∧
    (∀ it ∈ ScanAll env fs, 0 < it.Size ∧ it.Size = getDirSize fs it.Path) ∧
    (∀ p ∈ antigravityPaths env,
      (findingOf fs p ∈ ScanAntigravity env fs
        ↔ (pathExists fs p.path = true ∧ 0 < getDirSize fs p.path))) ∧
    (env.GOOS = "darwin" → ∀ p ∈ xcodePaths env,
      (findingOf fs p ∈ ScanXcode env fs
        ↔ (pathExists fs p.path = true ∧ 100 * 1024 * 1024 < getDirSize fs p.path))) ∧
    (∀ p ∈ androidPaths env,
      (findingOf fs p ∈ ScanAndroid env fs
        ↔ (pathExists fs p.path = true ∧ 100 * 1024 * 1024 < getDirSize fs p.path))) ∧
    (∀ e ∈ avdEntries env fs, e.IsDir = true → Ext e.Name = ".avd" →
      (avdFinding fs (getHomeDir env ++ [".android", "avd"]) e ∈ ScanAndroid env fs
        ↔ 1024 * 1024 * 1024
            < getDirSize fs (getHomeDir env ++ [".android", "avd"] ++ [e.Name]))) ∧
    (∀ p ∈ vscodePaths env,
      (findingOf fs p ∈ ScanVSCode env fs
        ↔ (pathExists fs p.path = true ∧ 50 * 1024 * 1024 < getDirSize fs p.path))) ∧
    (pubCacheFinding env fs ∈ ScanFlutter env fs basePath
      ↔ (pathExists fs (getHomeDir env ++ [".pub-cache"]) = true
          ∧ 100 * 1024 * 1024 < getDirSize fs (getHomeDir env ++ [".pub-cache"]))) ∧
    (∀ (node : Node), fs.resolve (flutterBase env basePath) = some node →
      ∀ (p : Path) (sz : Int) (es : Entries),
        Visits (flutterBase env basePath) node p (Node.dir sz es) → Base p = "build" →
        (buildFinding fs p ∈ ScanFlutter env fs basePath
          ↔ (pathExists fs (Dir p ++ ["pubspec.yaml"]) = true
              ∧ 100 * 1024 * 1024 < getDirSize fs p))) := by
  have hx : ∀ it ∈ ScanXcode env fs,
      100 * 1024 * 1024 < it.Size ∧ it.Size = getDirSize fs it.Path := by
    intro it hit
    unfold ScanXcode at hit
    split at hit
    · exact absurd hit (List.not_mem_nil _)
    · exact ⟨(scanPaths_bound fs _ _ it hit).1, (scanPaths_bound fs _ _ it hit).2.1⟩
  refine ⟨fun it hit => (scanPaths_bound fs _ _ it hit).1,
    fun it hit => (ScanFlutter_bound env fs basePath it hit).1,
    fun it hit => (hx it hit).1,
    fun it hit => ⟨(ScanAndroid_bound env fs it hit).1, (ScanAndroid_bound env fs it hit).2.1⟩,
    fun it hit => (scanPaths_bound fs _ _ it hit).1, ?_, ?_, ?_, ?_, ?_, ?_, ?_, ?_⟩
  · intro it hit
    unfold ScanAll at hit
    simp only [List.mem_append] at hit
    have h100 : ∀ x : Int, 100 * 1024 * 1024 < x → 0 < x := by intro x hx; omega
    have h50 : ∀ x : Int, 50 * 1024 * 1024 < x → 0 < x := by intro x hx; omega
    rcases hit with (((h | h) | h) | h) | h
    · exact ⟨(scanPaths_bound fs _ _ it h).1, (scanPaths_bound fs _ _ it h).2.1⟩
    · exact ⟨h100 _ (ScanFlutter_bound env fs [] it h).1, (ScanFlutter_bound env fs [] it h).2⟩
    · exact ⟨h100 _ (hx it h).1, (hx it h).2⟩
    · exact ⟨h100 _ (ScanAndroid_bound env fs it h).1, (ScanAndroid_bound env fs it h).2.2⟩
    · exact ⟨h50 _ (scanPaths_bound fs _ _ it h).1, (scanPaths_bound fs _ _ it h).2.1⟩
  · intro p hp
    exact findingOf_mem_scanPaths fs 0 _ p hp
  · intro hd p hp
    unfold ScanXcode
    rw [if_neg (fun h => h hd)]
    exact findingOf_mem_scanPaths fs _ _ p hp
  · intro p hp
    rw [ScanAndroid_eq, List.mem_append]
    constructor
    · rintro (h | h)
      · exact (findingOf_mem_scanPaths fs _ _ p hp).mp h
      · obtain ⟨e, _, _, _, _, heq⟩ := (mem_avd_part env fs _).mp h
        have hs : p.safeLevel = "warning" := congrArg CleanableItem.SafeLevel heq
        exact absurd hs (androidPaths_safeLevel env p hp)
    · intro h
      exact Or.inl ((findingOf_mem_scanPaths fs _ _ p hp).mpr h)
  · intro e he hdir hext
    rw [ScanAndroid_eq, List.mem_append]
    constructor
    · rintro (h | h)
      · obtain ⟨p, hp, _, _, heq⟩ := (mem_scanPaths fs _ _ _).mp h
        have hs : "warning" = p.safeLevel := congrArg CleanableItem.SafeLevel heq
        exact absurd hs.symm (androidPaths_safeLevel env p hp)
      · obtain ⟨e2, _, _, _, h3, heq⟩ := (mem_avd_part env fs _).mp h
        have hpath : getHomeDir env ++ [".android", "avd"] ++ [e.Name]
            = getHomeDir env ++ [".android", "avd"] ++ [e2.Name] :=
          congrArg CleanableItem.Path heq
        rw [hpath]
        exact h3
    · intro h
      exact Or.inr ((mem_avd_part env fs _).mpr ⟨e, he, hdir, hext, h, rfl⟩)
  · intro p hp
    exact findingOf_mem_scanPaths fs _ _ p hp
  · rw [ScanFlutter_eq, List.mem_append]
    constructor
    · rintro (h | h)
      · obtain ⟨_, q, _, _, _, _, _, _, _, heq⟩ := mem_scanFlutterWalk env fs basePath _ h
        have hs : "caution" = "safe" := congrArg CleanableItem.SafeLevel heq
        exact absurd hs (by decide)
      · split at h
        · rename_i hc; exact hc
        · exact absurd h (List.not_mem_nil _)
    · intro h
      right
      rw [if_pos h]
      exact List.mem_singleton.mpr rfl
  · intro node hnode p sz es hv hb
    rw [← buildFinding_mem_walk env fs basePath node hnode p sz es hv hb, ScanFlutter_eq,
      List.mem_append]
    constructor
    · rintro (h | h)
      · exact h
      · split at h
        · rw [List.mem_singleton] at h
          have hs : "safe" = "caution" := congrArg CleanableItem.SafeLevel h
          exact absurd hs (by decide)
        · exact absurd h (List.not_mem_nil _)
    · intro h
      exact Or.inl h

/-- C9, at the boundary: a Gradle cache directory of exactly 100 MiB (104857600 bytes)
gives no finding, and one of 104857601 bytes gives its finding. -/
theorem findings_exceed_threshold_witness :
    findingOf (androidFS 104857600)
        ⟨["/", "home", "u", ".gradle", "caches"], "Android", "Gradle caches", "safe"⟩
      ∉ ScanAndroid linuxEnv (androidFS 104857600) ∧
    ScanAll linuxEnv (androidFS 104857600) = [] ∧
    findingOf (androidFS 104857601)
        ⟨["/", "home", "u", ".gradle", "caches"], "Android", "Gradle caches", "safe"⟩
      ∈ ScanAndroid linuxEnv (androidFS 104857601) ∧
    ScanAll linuxEnv (androidFS 104857601) = androidFindings 104857601 := by
  have hmem : (⟨["/", "home", "u", ".gradle", "caches"], "Android", "Gradle caches", "safe"⟩
      : PathSpec) ∈ androidPaths linuxEnv := by decide
  obtain ⟨_, _, _, _, _, _, _, _, h0, _⟩ :=
    findings_exceed_threshold linuxEnv (androidFS 104857600) []
  obtain ⟨_, _, _, _, _, _, _, _, h1, _⟩ :=
    findings_exceed_threshold linuxEnv (androidFS 104857601) []
  refine ⟨?_, by decide, ?_, by decide⟩
  · rw [h0 _ hmem]
    decide
  · rw [h1 _ hmem]
    decide


/-! ## The `.dart_tool` rule of `ScanFlutter` -/

theorem Base_append_singleton (p : Path) (name : String) : Base (p ++ [name]) = name := by
  unfold Base
  simp

theorem ScanFlutter_no_dart_tool (env : Env) (fs : FS) (basePath : Path) :
    ∀ it ∈ ScanFlutter env fs basePath, Base it.Path ≠ ".dart_tool" := by
  intro it hit
  rw [ScanFlutter_eq, List.mem_append] at hit
  rcases hit with h | h
  · obtain ⟨_, q, _, _, _, _, hb, _, _, heq⟩ := mem_scanFlutterWalk env fs basePath it h
    subst heq
    show Base q ≠ ".dart_tool"
    rw [hb]
    decide
  · split at h
    · rw [List.mem_singleton] at h
      subst h
      show Base (getHomeDir env ++ [".pub-cache"]) ≠ ".dart_tool"
      rw [Base_append_singleton]
      decide
    · exact absurd h (List.not_mem_nil _)

/-- C11, the code at a failing input. Under the base path `/home/u/Documents`, the
directory `app/.dart_tool` is reached by the walk (neither `Documents` nor `app` is
hidden or `node_modules`) and its size, 60 MiB, is above the 50 MiB threshold, yet
`ScanFlutter` returns no finding at all: the callback returns `SkipDir` for every
directory whose name starts with a dot before it comes to the `.dart_tool` test. -/
theorem dartTool_not_found :
    (dartToolFS 62914560).resolve (flutterBase linuxEnv []) = some (dartToolDocuments 62914560) ∧
    Visits (flutterBase linuxEnv []) (dartToolDocuments 62914560)
      ["/", "home", "u", "Documents", "app", ".dart_tool"] (dirOfSize 62914560) ∧
    getDirSize (dartToolFS 62914560) ["/", "home", "u", "Documents", "app", ".dart_tool"]
      = 62914560 ∧
    (50 * 1024 * 1024 : Int) < 62914560 ∧
    ScanFlutter linuxEnv (dartToolFS 62914560) [] = [] ∧
    (scanFlutterFn (dartToolFS 62914560) []
      ["/", "home", "u", "Documents", "app", ".dart_tool"]
      (some ⟨".dart_tool", true, 4096⟩) false).2 = WalkErr.SkipDir := by
  refine ⟨rfl, ?_, by decide, by decide, by decide, by decide⟩
  have h1 : Visits ["/", "home", "u", "Documents"] (dartToolDocuments 62914560)
      (["/", "home", "u", "Documents"] ++ ["app"]) (dartToolApp 62914560) :=
    @Visits.entry _ _ _ 4096 (Entries.cons "app" (dartToolApp 62914560) Entries.nil) _ _
      Visits.start (by decide) (List.mem_cons_self _ _)
  exact @Visits.entry _ _ _ 4096
    (Entries.cons ".dart_tool" (dirOfSize 62914560)
      (Entries.cons "pubspec.yaml" (Node.file FileKind.regular 300) Entries.nil)) _ _
    h1 (by decide) (List.mem_cons_self _ _)


/-! ## The size accumulator -/

theorem getDirSizeFn_err (size : Int) (path : Path) (info : Option FileInfo) :
    getDirSizeFn size path info true = (size, WalkErr.nil) := by
  simp [getDirSizeFn]

theorem getDirSizeFn_file (size : Int) (path : Path) (name : String) (sz : Int) :
    getDirSizeFn size path (some ⟨name, false, sz⟩) false
      = (wrapInt64 (size + sz), WalkErr.nil) := by
  simp [getDirSizeFn]

theorem getDirSizeFn_dir (size : Int) (path : Path) (name : String) (sz : Int) :
    getDirSizeFn size path (some ⟨name, true, sz⟩) false = (size, WalkErr.nil) := by
  simp [getDirSizeFn]

mutual
theorem walk_getDirSizeFn :
    ∀ (node : Node) (path : Path) (size t : Int), size = wrapInt64 t →
      walk getDirSizeFn path node size
        = (wrapInt64 (t + totalSize node.files), WalkErr.nil)
  | .file k sz, path, size, t, h => by
    simp [walk, getDirSizeFn_file, Node.files, totalSize, h, wrapInt64_add_wrap]
  | .unreadableDir sz, path, size, t, h => by
    simp [walk, getDirSizeFn_err, Node.files, totalSize, h]
  | .bad, path, size, t, h => by
    simp [walk, getDirSizeFn_err, Node.files, totalSize, h]
  | .dir sz es, path, size, t, h => by
    unfold walk
    simp only [getDirSizeFn_dir, if_true]
    rw [walkEntries_getDirSizeFn es path size t h]
    simp [Node.files]
theorem walkEntries_getDirSizeFn :
    ∀ (es : Entries) (path : Path) (size t : Int), size = wrapInt64 t →
      walkEntries getDirSizeFn path es size
        = (wrapInt64 (t + totalSize es.files), WalkErr.nil)
  | .nil, path, size, t, h => by
    simp [walkEntries, Entries.files, totalSize, h]
  | .cons name node rest, path, size, t, h => by
    unfold walkEntries
    rw [walk_getDirSizeFn node (path ++ [name]) size t h]
    simp only [walkStops, Bool.false_eq_true, if_false]
    rw [walkEntries_getDirSizeFn rest path _ (t + totalSize node.files) rfl]
    simp [Entries.files, totalSize, add_assoc]
end

theorem getDirSize_eq (fs : FS) (root : Path) :
    getDirSize fs root = wrapInt64 (totalSize (filesUnder fs root)) := by
  unfold getDirSize Walk filesUnder
  cases h : fs.resolve root with
  | none => simp [getDirSizeFn_err, totalSize, wrapInt64_zero]
  | some node =>
    simp only []
    rw [walk_getDirSizeFn node root 0 0 wrapInt64_zero.symm]
    simp


theorem regularFiles_eq_self (files : List (FileKind × Int))
    (h : ∀ f ∈ files, f.1 = FileKind.regular) : regularFiles files = files := by
  unfold regularFiles
  rw [List.filter_eq_self]
  intro f hf
  simp [h f hf]

/-- C13 (amended). For every root path, `getDirSize` returns the sum, in `int64`
arithmetic, of the sizes `lstat` reports for all non-directory entries reachable from
the root without following symbolic links: regular files, and also symbolic links and
special files. It is the exact sum whenever that sum fits in an `int64`, and it is the
sum of the sizes of the regular files whenever, in addition, no other kind of
non-directory entry is reachable. Directories contribute nothing of their own (their
reported size is not part of the reachable entries), a directory that cannot be
listed or a name whose `lstat` fails contributes zero, and the entries after it are
still summed. -/
theorem getDirSize_sums_non_directories (fs : FS) (root : Path) :
    getDirSize fs root = wrapInt64 (totalSize (filesUnder fs root)) ∧
    (IsInt64 (totalSize (filesUnder fs root)) →
      getDirSize fs root = totalSize (filesUnder fs root)) ∧
    ((∀ f ∈ filesUnder fs root, f.1 = FileKind.regular) →
      IsInt64 (totalSize (regularFiles (filesUnder fs root))) →
      getDirSize fs root = totalSize (regularFiles (filesUnder fs root))) ∧
    (∀ (kind : FileKind) (size : Int), (Node.file kind size).files = [(kind, size)]) ∧
    (∀ (size : Int) (es : Entries), (Node.dir size es).files = es.files) ∧
    (∀ (size : Int), (Node.unreadableDir size).files = []) ∧
    Node.bad.files = [] ∧
    (∀ (name : String) (node : Node) (rest : Entries),
      (Entries.cons name node rest).files = node.files ++ rest.files) := by
  refine ⟨getDirSize_eq fs root, ?_, ?_, ?_, ?_, ?_, ?_, ?_⟩
  · intro hfit
    rw [getDirSize_eq, wrapInt64_of_isInt64 hfit]
  · intro hreg hfit
    rw [regularFiles_eq_self _ hreg] at hfit ⊢
    rw [getDirSize_eq, wrapInt64_of_isInt64 hfit]
  · intro kind size; simp [Node.files]
  · intro size es; simp [Node.files]
  · intro size; simp [Node.files]
  · simp [Node.files]
  · intro name node rest; simp [Entries.files]

/-- C13, an instance: in a directory that holds only regular files (5 and 13 bytes), a
name whose `lstat` fails and a directory that cannot be listed, `getDirSize` returns 18,
the sum of the regular files; the file listed after the two unreadable entries is
counted. -/
theorem getDirSize_sums_non_directories_witness :
    filesUnder regularFS ["/", "cache"] = [(FileKind.regular, 5), (FileKind.regular, 13)] ∧
    getDirSize regularFS ["/", "cache"] = 18 := by
  have hf : filesUnder regularFS ["/", "cache"]
      = [(FileKind.regular, 5), (FileKind.regular, 13)] := by decide
  obtain ⟨_, _, h, _⟩ := getDirSize_sums_non_directories regularFS ["/", "cache"]
  refine ⟨hf, ?_⟩
  rw [h (by rw [hf]; decide) (by rw [hf]; unfold IsInt64; decide), hf]
  decide

/-- C13, as stated, fails in two ways. A symbolic link and a special file contribute
their reported sizes: in `/cache` of `mixedFS` the regular files sum to 18 bytes and
`getDirSize` returns 36. And the sum is an `int64`: for two regular files of 2^62 bytes
`getDirSize` returns -2^63. -/
theorem getDirSize_counts_other_kinds :
    totalSize (regularFiles (filesUnder mixedFS ["/", "cache"])) = 18 ∧
    getDirSize mixedFS ["/", "cache"] = 36 ∧
    getDirSize mixedFS ["/", "cache"]
      ≠ totalSize (regularFiles (filesUnder mixedFS ["/", "cache"])) ∧
    totalSize (regularFiles (filesUnder overflowFS ["/", "cache"])) = 2 ^ 63 ∧
    getDirSize overflowFS ["/", "cache"] = -(2 ^ 63) := by
  decide


/-! ## The home directory -/

theorem getHomeDir_of_none (env : Env) (h : env.UserHomeDir = none) : getHomeDir env = [] := by
  unfold getHomeDir
  rw [h]

theorem mem_ScanAll_of_android (env : Env) (fs : FS) (it : CleanableItem)
    (h : it ∈ ScanAndroid env fs) : it ∈ ScanAll env fs := by
  unfold ScanAll
  simp only [List.mem_append]
  exact Or.inl (Or.inr h)

/-- C12 (amended). Failure to resolve the home directory is not fatal and is not
surfaced: `getHomeDir` returns the empty path, and every scan goes on exactly as it
does for an environment whose home directory is the empty path. It builds its
candidate paths relative to the working directory (`.gradle/caches`, `Documents`,
`.pub-cache` and so on), examines the filesystem there, and returns the finding of
every candidate that exists with a size above its threshold. -/
theorem scans_go_on_without_home (env : Env) (fs : FS) (hfail : env.UserHomeDir = none) :
    getHomeDir env = [] ∧
    androidPaths env
      = [ ⟨[".gradle", "caches"], "Android", "Gradle caches", "safe"⟩,
          ⟨[".gradle", "wrapper", "dists"], "Android", "Gradle distributions", "caution"⟩,
          ⟨[".android", "cache"], "Android", "Android SDK cache", "safe"⟩ ] ∧
    flutterBase env [] = ["Documents"] ∧
    ScanAntigravity env fs = ScanAntigravity { env with UserHomeDir := some [] } fs ∧
    (∀ basePath : Path,
      ScanFlutter env fs basePath = ScanFlutter { env with UserHomeDir := some [] } fs basePath) ∧
    ScanXcode env fs = ScanXcode { env with UserHomeDir := some [] } fs ∧
    ScanAndroid env fs = ScanAndroid { env with UserHomeDir := some [] } fs ∧
    ScanVSCode env fs = ScanVSCode { env with UserHomeDir := some [] } fs ∧
    ScanAll env fs = ScanAll { env with UserHomeDir := some [] } fs ∧
    (∀ p ∈ androidPaths env,
      pathExists fs p.path = true → 100 * 1024 * 1024 < getDirSize fs p.path →
      findingOf fs p ∈ ScanAndroid env fs ∧ findingOf fs p ∈ ScanAll env fs) := by
  have hh : getHomeDir env = [] := getHomeDir_of_none env hfail
  have hh2 : getHomeDir { env with UserHomeDir := some [] } = [] := rfl
  have e1 : ScanAntigravity env fs = ScanAntigravity { env with UserHomeDir := some [] } fs := by
    simp only [ScanAntigravity, antigravityPaths, hh, hh2]
  have e2 : ∀ basePath : Path,
      ScanFlutter env fs basePath
        = ScanFlutter { env with UserHomeDir := some [] } fs basePath := by
    intro basePath
    simp only [ScanFlutter, scanFlutterWalk, flutterBase, hh, hh2]
  have e3 : ScanXcode env fs = ScanXcode { env with UserHomeDir := some [] } fs := by
    simp only [ScanXcode, xcodePaths, hh, hh2]
  have e4 : ScanAndroid env fs = ScanAndroid { env with UserHomeDir := some [] } fs := by
    simp only [ScanAndroid, androidPaths, hh, hh2]
  have e5 : ScanVSCode env fs = ScanVSCode { env with UserHomeDir := some [] } fs := by
    simp only [ScanVSCode, vscodePaths, vscodeBasePaths, hh, hh2]
  refine ⟨hh, ?_, ?_, e1, e2, e3, e4, e5, ?_, ?_⟩
  · simp [androidPaths, hh]
  · simp [flutterBase, hh]
  · unfold ScanAll
    rw [e1, e2, e3, e4, e5]
  · intro p hp h1 h2
    have hmem : findingOf fs p ∈ ScanAndroid env fs := by
      rw [ScanAndroid_eq, List.mem_append]
      exact Or.inl ((findingOf_mem_scanPaths fs _ _ p hp).mpr ⟨h1, h2⟩)
    exact ⟨hmem, mem_ScanAll_of_android env fs _ hmem⟩

/-- C12, an instance: with no home directory and `/home/u` as working directory, the
Gradle cache directory of 400 MB is found under its relative path. -/
theorem scans_go_on_without_home_witness :
    noHomeEnv.UserHomeDir = none ∧
    ({ Path := [".gradle", "caches"], Size := 400000000, Category := "Android",
       Description := "Gradle caches", SafeLevel := "safe" } : CleanableItem)
      ∈ ScanAll noHomeEnv (androidCwdFS 400000000) := by
  obtain ⟨_, hp, _, _, _, _, _, _, _, h⟩ :=
    scans_go_on_without_home noHomeEnv (androidCwdFS 400000000) rfl
  have h1 := h ⟨[".gradle", "caches"], "Android", "Gradle caches", "safe"⟩
    (by rw [hp]; exact List.mem_cons_self _ _) (by decide) (by decide)
  have e : findingOf (androidCwdFS 400000000)
      ⟨[".gradle", "caches"], "Android", "Gradle caches", "safe"⟩
      = { Path := [".gradle", "caches"], Size := 400000000, Category := "Android",
          Description := "Gradle caches", SafeLevel := "safe" } := by decide
  rw [e] at h1
  exact ⟨rfl, h1.2⟩

/-- C12, as stated, fails: with no home directory and `/home/u` as working directory,
`ScanAndroid` examines the filesystem and returns three findings, under relative
paths. -/
theorem ScanAndroid_without_home :
    getHomeDir noHomeEnv = [] ∧
    ScanAndroid noHomeEnv (androidCwdFS 400000000) = relativeFindings 400000000 ∧
    ScanAndroid noHomeEnv (androidCwdFS 400000000) ≠ [] := by
  decide

end AGC
